import Mathlib

/-!
Verification of the deterministic robustness / physics-audit / model-form /
corpus engine of the FreegsNKE_MAST repository.

The Python sources are shallowly embedded here:
* machine floats are modelled by `Flt` (a rational together with the IEEE
  special values `+inf`, `-inf`, `nan`); comparisons follow IEEE semantics
  (`nan` is incomparable),
* fallible code paths are modelled with `Except` / `Option`,
* pandas dataframes are modelled as Lean lists of row structures,
* `json.dumps(..., sort_keys=True, separators=(",",":"))` is modelled by an
  executable canonicalizer and printer over an inductive JSON value type,
* the SHA-256 digest is kept as an abstract function parameter `H`; every
  statement about hashes is explicit about what it assumes of `H`.
-/

/-- Model of a Python / numpy double: a rational value or one of the IEEE
special values.  Arithmetic on the `fin` constructor is exact rational
arithmetic (the claims under study are about control flow and aggregation,
not rounding). -/
inductive Flt where
  | fin (q : ℚ)
  | pinf
  | ninf
  | nan
deriving DecidableEq, Repr

namespace Flt

/-- math.isnan. -/
def isNan : Flt → Bool
  | nan => true
  | _ => false

/-- numpy.isfinite / math.isfinite. -/
def isFinite : Flt → Bool
  | fin _ => true
  | _ => false

/-- IEEE less-or-equal: any comparison against `nan` is false. -/
def leb : Flt → Flt → Bool
  | nan, _ => false
  | _, nan => false
  | ninf, _ => true
  | _, ninf => false
  | fin a, fin b => a ≤ b
  | fin _, pinf => true
  | pinf, pinf => true
  | pinf, fin _ => false

/-- IEEE strict less-than: any comparison against `nan` is false. -/
def ltb : Flt → Flt → Bool
  | nan, _ => false
  | _, nan => false
  | ninf, ninf => false
  | ninf, _ => true
  | _, ninf => false
  | fin a, fin b => a < b
  | fin _, pinf => true
  | pinf, _ => false

/-- IEEE negation. -/
def neg : Flt → Flt
  | fin q => fin (-q)
  | pinf => ninf
  | ninf => pinf
  | nan => nan

/-- IEEE addition (`inf + -inf = nan`). -/
def add : Flt → Flt → Flt
  | nan, _ => nan
  | _, nan => nan
  | fin a, fin b => fin (a + b)
  | pinf, ninf => nan
  | ninf, pinf => nan
  | pinf, _ => pinf
  | _, pinf => pinf
  | ninf, _ => ninf
  | _, ninf => ninf

/-- IEEE subtraction. -/
def sub (a b : Flt) : Flt := add a (neg b)

/-- IEEE multiplication (`0 * inf = nan`). -/
def mul : Flt → Flt → Flt
  | nan, _ => nan
  | _, nan => nan
  | fin a, fin b => fin (a * b)
  | pinf, pinf => pinf
  | pinf, ninf => ninf
  | ninf, pinf => ninf
  | ninf, ninf => pinf
  | pinf, fin b => if 0 < b then pinf else if b < 0 then ninf else nan
  | fin a, pinf => if 0 < a then pinf else if a < 0 then ninf else nan
  | ninf, fin b => if 0 < b then ninf else if b < 0 then pinf else nan
  | fin a, ninf => if 0 < a then ninf else if a < 0 then pinf else nan

/-- IEEE division.  The `fin a / fin 0` case is unreachable in every guarded
code path embedded below (the sources test the denominator first); it is
mapped to `nan` to keep the function total. -/
def div : Flt → Flt → Flt
  | nan, _ => nan
  | _, nan => nan
  | fin a, fin b =>
      if b = 0 then nan else fin (a / b)
  | pinf, fin b => if 0 ≤ b then pinf else ninf
  | ninf, fin b => if 0 ≤ b then ninf else pinf
  | fin _, pinf => fin 0
  | fin _, ninf => fin 0
  | pinf, pinf => nan
  | pinf, ninf => nan
  | ninf, pinf => nan
  | ninf, ninf => nan

/-- IEEE absolute value. -/
def fabs : Flt → Flt
  | fin q => fin |q|
  | pinf => pinf
  | ninf => pinf
  | nan => nan

/-- Extract the rational of a finite value (0 on the special values; used
only after a finiteness mask). -/
def toQ : Flt → ℚ
  | fin q => q
  | _ => 0

/-- Binary minimum over non-nan values (total order `-inf < fin < +inf`). -/
def min2 (a b : Flt) : Flt := if leb a b then a else b

/-- Binary maximum over non-nan values. -/
def max2 (a b : Flt) : Flt := if leb b a then a else b

end Flt

/-- Model of `pandas.Series.min()`: the minimum over the entries that are not
`nan` (pandas skips NaN), or `nan` when nothing remains. -/
def fminSkip (l : List Flt) : Flt :=
  match l.filter (fun x => !x.isNan) with
  | [] => Flt.nan
  | x :: xs => xs.foldl Flt.min2 x

/-- Model of `pandas.Series.max()`: NaN-skipping maximum. -/
def fmaxSkip (l : List Flt) : Flt :=
  match l.filter (fun x => !x.isNan) with
  | [] => Flt.nan
  | x :: xs => xs.foldl Flt.max2 x

/-! ### Window library (robustness/window_library.py) -/

/-- Decimal formatting of a rational with 4 fractional digits, as Python's
`"%.4f"` produces on grid values that are exact multiples of `1/10000`
(all grids used by the library are).  `signPlus` selects the `"%+.4f"`
variant. -/
def fmt4 (signPlus : Bool) (q : ℚ) : String :=
  let sgn : String := if q < 0 then "-" else if signPlus then "+" else ""
  let n : ℤ := ⌊|q| * 10000 + 1/2⌋
  let ip := n / 10000
  let fp := (n % 10000).toNat
  let fpStr := toString fp
  let pad := String.mk (List.replicate (4 - fpStr.length) '0')
  sgn ++ toString ip ++ "." ++ pad ++ fpStr

/-- WindowDef of robustness/schema.py (the candidate time interval). -/
structure WindowDef where
  window_id : String
  t_start : ℚ
  t_end : ℚ
  note : String
deriving DecidableEq, Repr

/-- generate_window_library of robustness/window_library.py: shift the
baseline endpoints by every `dt` of the grid, grow them outward by every
`ex` of the expansion grid, and drop any window with `t_end ≤ t_start`. -/
def generate_window_library (t_start t_end : ℚ)
    (dt_grid expand_grid : List ℚ) : List WindowDef :=
  dt_grid.flatMap fun dt =>
    expand_grid.filterMap fun ex =>
      let ts := t_start + dt - ex
      let te := t_end + dt + ex
      if te ≤ ts then none
      else some { window_id := "w_dt" ++ fmt4 true dt ++ "_ex" ++ fmt4 false ex,
                  t_start := ts, t_end := te, note := "baseline-shift-expand" }

/-- The (dt, ex) pairs whose shifted/expanded window collapses and is
dropped by `generate_window_library`. -/
def droppedPairs (t_start t_end : ℚ) (dt_grid expand_grid : List ℚ) :
    List (ℚ × ℚ) :=
  (dt_grid.flatMap fun dt => expand_grid.map fun ex => (dt, ex)).filter
    fun p => t_end + p.1 + p.2 ≤ t_start + p.1 - p.2

theorem window_library_inner_count (t0 t1 dt : ℚ) (exs : List ℚ) :
    (exs.filterMap fun ex =>
        if t1 + dt + ex ≤ t0 + dt - ex then none
        else some (⟨"w_dt" ++ fmt4 true dt ++ "_ex" ++ fmt4 false ex,
                    t0 + dt - ex, t1 + dt + ex, "baseline-shift-expand"⟩ :
                    WindowDef)).length
      + (exs.filter fun ex => t1 + dt + ex ≤ t0 + dt - ex).length
      = exs.length := by
  induction exs with
  | nil => simp
  | cons e tl ih =>
    by_cases h : t1 + dt + e ≤ t0 + dt - e
    · simp only [List.filterMap_cons, List.filter_cons, if_pos h,
        decide_eq_true_eq, h, if_true, List.length_cons]
      omega
    · simp only [List.filterMap_cons, List.filter_cons, if_neg h,
        decide_eq_true_eq, h, if_false, List.length_cons]
      omega

/-- C4: the window library contains exactly one window per (Δt, expand)
pair minus the pairs whose resulting `t_end ≤ t_start`; every produced
window satisfies `t_start < t_end`; and the concrete grids
Δt ∈ {−0.01, 0, 0.01}, expand ∈ {0, 0.01} around baseline (0.5, 0.6)
yield exactly 6 windows, each with `t_end > t_start`. -/
theorem window_library_spec (t0 t1 : ℚ) (dts exs : List ℚ) :
    (generate_window_library t0 t1 dts exs).length
        = dts.length * exs.length
          - (droppedPairs t0 t1 dts exs).length
      ∧ (∀ w ∈ generate_window_library t0 t1 dts exs, w.t_start < w.t_end)
      ∧ (generate_window_library (1/2) (3/5)
            [-(1/100), 0, 1/100] [0, 1/100]).length = 6
      ∧ ∀ w ∈ generate_window_library (1/2) (3/5)
            [-(1/100), 0, 1/100] [0, 1/100], w.t_start < w.t_end := by
  refine ⟨?_, ?_,
    by norm_num [generate_window_library, List.flatMap_cons, List.filterMap_cons],
    by norm_num [generate_window_library, List.flatMap_cons, List.filterMap_cons]⟩
  · have key : (generate_window_library t0 t1 dts exs).length
        + (droppedPairs t0 t1 dts exs).length = dts.length * exs.length := by
      induction dts with
      | nil => simp [generate_window_library, droppedPairs]
      | cons d tl ih =>
        have hinner := window_library_inner_count t0 t1 d exs
        have hmap : (List.filter (fun p : ℚ × ℚ => decide (t1 + p.1 + p.2 ≤ t0 + p.1 - p.2))
              (exs.map fun ex => (d, ex))).length
            = (List.filter (fun ex : ℚ => decide (t1 + d + ex ≤ t0 + d - ex)) exs).length := by
          rw [List.filter_map, List.length_map]
          rfl
        simp only [generate_window_library, droppedPairs, List.flatMap_cons,
          List.length_append, List.filter_append, List.length_cons] at ih ⊢
        rw [hmap]
        have hexp : (tl.length + 1) * exs.length = exs.length + tl.length * exs.length := by
          ring
        omega
    omega
  · intro w hw
    simp only [generate_window_library, List.mem_flatMap, List.mem_filterMap] at hw
    obtain ⟨dt, _, ex, _, hif⟩ := hw
    by_cases h : t1 + dt + ex ≤ t0 + dt - ex
    · simp [h] at hif
    · simp only [if_neg h, Option.some.injEq] at hif
      subst hif
      simpa using lt_of_not_le h

/-! ### Residual budget sanity check (physics_audit/budget.py) -/

/-- sanity_check_budget of physics_audit/budget.py.  The bucket map is a
dict of floats; the `v is None` / `isinstance` guards of the source are
vacuous in this model because every value is a float.  Note the source
tests `math.isnan(v)` and `v < 0` only — it never tests `math.isinf`. -/
def sanity_check_budget (buckets : List (String × Flt)) : Bool :=
  if buckets.isEmpty then false
  else buckets.all fun kv => !kv.2.isNan && !Flt.ltb kv.2 (Flt.fin 0)

/-- budget_total of physics_audit/budget.py. -/
def budget_total (buckets : List (String × Flt)) : Flt :=
  (buckets.map Prod.snd).foldl Flt.add (Flt.fin 0)

/-- C6 counterexample: a bucket map holding the non-finite value `+inf`
passes `sanity_check_budget`, so `sanity_ok` is not equivalent to
"non-empty and every value finite and ≥ 0" as claimed. -/
theorem sanity_check_budget_accepts_pinf :
    sanity_check_budget [("equilibrium", Flt.pinf)] = true
      ∧ Flt.pinf.isFinite = false := by
  constructor
  · rfl
  · rfl

/-- C6 (amended): `sanity_ok` is true iff the bucket map is non-empty and
every bucket value is neither NaN nor negative; a `+inf` value passes the
check (only NaN and negative values fail it). -/
theorem sanity_check_budget_spec (buckets : List (String × Flt)) :
    sanity_check_budget buckets = true ↔
      buckets ≠ [] ∧ ∀ kv ∈ buckets,
        kv.2.isNan = false ∧ Flt.ltb kv.2 (Flt.fin 0) = false := by
  unfold sanity_check_budget
  rcases buckets with _ | ⟨b, tl⟩
  · simp
  · simp [List.all_eq_true, Bool.and_eq_true]

/-! ### Stability tiering (robustness/analysis.py) -/

/-- Result dictionary of `stability_tiering`; fields that a branch does not
set are `none`. -/
structure StabilityResult where
  ok : Bool
  error : Option String := none
  baseline : Option Flt := none
  worst_case : Option Flt := none
  relative_degradation : Option Flt := none
  tier : Option String := none
deriving DecidableEq, Repr

/-- stability_tiering of robustness/analysis.py: `baseline` is the
(NaN-skipping) minimum of `score_total` over the window's scenarios,
`worst` the maximum; a non-finite or non-positive baseline is rejected;
otherwise the relative degradation `(worst-baseline)/baseline` is tiered
against the two thresholds. -/
def stability_tiering (scores : List Flt) (green yellow : ℚ) :
    StabilityResult :=
  if scores.isEmpty then { ok := false, error := some "no scenarios" }
  else
    let baseline := fminSkip scores
    let worst := fmaxSkip scores
    if !baseline.isFinite || Flt.leb baseline (Flt.fin 0) then
      { ok := false, error := some "invalid baseline",
        baseline := some baseline, worst_case := some worst }
    else
      let degradation := Flt.div (Flt.sub worst baseline) baseline
      let tier :=
        if Flt.leb degradation (Flt.fin green) then "GREEN"
        else if Flt.leb degradation (Flt.fin yellow) then "YELLOW"
        else "RED"
      { ok := true, baseline := some baseline, worst_case := some worst,
        relative_degradation := some degradation, tier := some tier }

theorem Flt.leb_eq_not_ltb {x y : Flt}
    (hx : x.isNan = false) (hy : y.isNan = false) :
    Flt.leb x y = !Flt.ltb y x := by
  cases x <;> cases y <;>
    simp_all [Flt.leb, Flt.ltb, Flt.isNan, ← decide_not, not_lt]

theorem Flt.ltb_isNan_false {x y : Flt} (h : Flt.ltb x y = true) :
    x.isNan = false ∧ y.isNan = false := by
  cases x <;> cases y <;> simp_all [Flt.ltb, Flt.isNan]

theorem Flt.leb_fin_false_of_ltb_fin {D : Flt} {g y : ℚ} (hgy : g ≤ y)
    (h : Flt.ltb (Flt.fin y) D = true) : Flt.leb D (Flt.fin g) = false := by
  cases D with
  | fin d =>
    have hyd : y < d := by simpa [Flt.ltb] using h
    simp [Flt.leb, not_le.mpr (lt_of_le_of_lt hgy hyd)]
  | pinf => rfl
  | ninf => simp [Flt.ltb] at h
  | nan => simp [Flt.ltb] at h

theorem stability_tiering_pos_eq (scores : List Flt) (green yellow b : ℚ)
    (hne : scores ≠ []) (hb : fminSkip scores = Flt.fin b) (hpos : 0 < b) :
    stability_tiering scores green yellow =
      { ok := true,
        baseline := some (Flt.fin b),
        worst_case := some (fmaxSkip scores),
        relative_degradation :=
          some (Flt.div (Flt.sub (fmaxSkip scores) (Flt.fin b)) (Flt.fin b)),
        tier := some
          (if Flt.leb (Flt.div (Flt.sub (fmaxSkip scores) (Flt.fin b))
               (Flt.fin b)) (Flt.fin green) then "GREEN"
           else if Flt.leb (Flt.div (Flt.sub (fmaxSkip scores) (Flt.fin b))
               (Flt.fin b)) (Flt.fin yellow) then "YELLOW"
           else "RED") } := by
  have hempty : scores.isEmpty = false := by
    cases scores with
    | nil => exact absurd rfl hne
    | cons a tl => rfl
  unfold stability_tiering
  simp [hempty, hb, Flt.isFinite, Flt.leb, hpos.not_le]

theorem stability_tiering_bad_eq (scores : List Flt) (green yellow : ℚ)
    (hne : scores ≠ [])
    (hbad : (fminSkip scores).isFinite = false
      ∨ Flt.leb (fminSkip scores) (Flt.fin 0) = true) :
    stability_tiering scores green yellow =
      { ok := false, error := some "invalid baseline",
        baseline := some (fminSkip scores),
        worst_case := some (fmaxSkip scores) } := by
  have hempty : scores.isEmpty = false := by
    cases scores with
    | nil => exact absurd rfl hne
    | cons a tl => rfl
  unfold stability_tiering
  rcases hbad with h | h <;> simp [hempty, h]

/-- C2: on a non-empty scenario table whose baseline (NaN-skipping minimum
of `score_total`) is finite and positive, the result is `ok` with
`relative_degradation = (worst - baseline)/baseline`, tiered GREEN when
`rd ≤ green`, YELLOW when `green < rd ≤ yellow`, RED when `rd > yellow`
(for ordered thresholds `green ≤ yellow`); when the baseline is ≤ 0 or not
finite, `ok = false` and no tier is reported. -/
theorem stability_tiering_spec (scores : List Flt) (green yellow : ℚ)
    (hgy : green ≤ yellow) (hne : scores ≠ []) :
    (∀ b : ℚ, fminSkip scores = Flt.fin b → 0 < b →
      (stability_tiering scores green yellow).ok = true
      ∧ (stability_tiering scores green yellow).relative_degradation
          = some (Flt.div (Flt.sub (fmaxSkip scores) (Flt.fin b)) (Flt.fin b))
      ∧ (Flt.leb (Flt.div (Flt.sub (fmaxSkip scores) (Flt.fin b)) (Flt.fin b))
            (Flt.fin green) = true →
          (stability_tiering scores green yellow).tier = some "GREEN")
      ∧ (Flt.ltb (Flt.fin green)
            (Flt.div (Flt.sub (fmaxSkip scores) (Flt.fin b)) (Flt.fin b)) = true →
         Flt.leb (Flt.div (Flt.sub (fmaxSkip scores) (Flt.fin b)) (Flt.fin b))
            (Flt.fin yellow) = true →
          (stability_tiering scores green yellow).tier = some "YELLOW")
      ∧ (Flt.ltb (Flt.fin yellow)
            (Flt.div (Flt.sub (fmaxSkip scores) (Flt.fin b)) (Flt.fin b)) = true →
          (stability_tiering scores green yellow).tier = some "RED"))
    ∧ (∀ b : ℚ, fminSkip scores = Flt.fin b → b ≤ 0 →
        (stability_tiering scores green yellow).ok = false
        ∧ (stability_tiering scores green yellow).tier = none)
    ∧ ((fminSkip scores).isFinite = false →
        (stability_tiering scores green yellow).ok = false
        ∧ (stability_tiering scores green yellow).tier = none) := by
  refine ⟨?_, ?_, ?_⟩
  · intro b hb hpos
    rw [stability_tiering_pos_eq scores green yellow b hne hb hpos]
    refine ⟨rfl, rfl, ?_, ?_, ?_⟩
    · intro hle
      simp [hle]
    · intro hlt hle
      have hnn := (Flt.ltb_isNan_false hlt).2
      have hng : Flt.leb (Flt.div (Flt.sub (fmaxSkip scores) (Flt.fin b))
          (Flt.fin b)) (Flt.fin green) = false := by
        rw [Flt.leb_eq_not_ltb hnn (by rfl), hlt]
        rfl
      simp [hng, hle]
    · intro hlt
      have hnn := (Flt.ltb_isNan_false hlt).2
      have hny : Flt.leb (Flt.div (Flt.sub (fmaxSkip scores) (Flt.fin b))
          (Flt.fin b)) (Flt.fin yellow) = false := by
        rw [Flt.leb_eq_not_ltb hnn (by rfl), hlt]
        rfl
      have hng := Flt.leb_fin_false_of_ltb_fin hgy hlt
      simp [hng, hny]
  · intro b hb hle
    have hbad : (fminSkip scores).isFinite = false
        ∨ Flt.leb (fminSkip scores) (Flt.fin 0) = true := by
      right
      rw [hb]
      simpa [Flt.leb] using hle
    rw [stability_tiering_bad_eq scores green yellow hne hbad]
    exact ⟨rfl, rfl⟩
  · intro hnf
    rw [stability_tiering_bad_eq scores green yellow hne (Or.inl hnf)]
    exact ⟨rfl, rfl⟩

/-- C2 witness: scores {1, 3} with thresholds (1, 2) give the positive
finite baseline 1 and degradation 2, tiered YELLOW. -/
theorem stability_tiering_spec_witness :
    (stability_tiering [Flt.fin 1, Flt.fin 3] 1 2).ok = true
      ∧ (stability_tiering [Flt.fin 1, Flt.fin 3] 1 2).tier = some "YELLOW" := by
  have hmin : fminSkip [Flt.fin 1, Flt.fin 3] = Flt.fin 1 := by
    norm_num [fminSkip, Flt.isNan, Flt.min2, Flt.leb, List.filter]
  have hmax : fmaxSkip [Flt.fin 1, Flt.fin 3] = Flt.fin 3 := by
    norm_num [fmaxSkip, Flt.isNan, Flt.max2, Flt.leb, List.filter]
  have h := (stability_tiering_spec [Flt.fin 1, Flt.fin 3] 1 2
      (by norm_num) (by simp)).1 1 hmin (by norm_num)
  have hdeg : Flt.div (Flt.sub (fmaxSkip [Flt.fin 1, Flt.fin 3]) (Flt.fin 1))
      (Flt.fin 1) = Flt.fin 2 := by
    rw [hmax]
    norm_num [Flt.div, Flt.sub, Flt.add, Flt.neg]
  refine ⟨h.1, ?_⟩
  apply h.2.2.2.1
  · rw [hdeg]
    norm_num [Flt.ltb]
  · rw [hdeg]
    norm_num [Flt.leb]

/-! ### Regression guard (corpus/regression_guard.py) -/

/-- Lookup with default 0, modelling `dict.get(key, 0)` on a tier-count
map. -/
def lookupZ (m : List (String × ℤ)) (k : String) : ℤ :=
  ((m.find? fun kv => kv.1 == k).map Prod.snd).getD 0

/-- Rendering of a float in an f-string.  Finite values print as the
underlying rational; the claims never inspect these substrings. -/
def fltStr : Flt → String
  | Flt.fin q => toString q
  | Flt.pinf => "inf"
  | Flt.ninf => "-inf"
  | Flt.nan => "nan"

/-- One optional axis block of the delta record (the `physics` /
`model_form` sections): two tier-count tables and the two medians of the
axis's continuous metric. -/
structure AxisDelta where
  tier_counts_A : List (String × ℤ)
  tier_counts_B : List (String × ℤ)
  median_A : Option Flt
  median_B : Option Flt
deriving DecidableEq, Repr

/-- The delta record read by the guard: robustness tier counts, the
relative-degradation medians, and the optional physics / model-form
sections. -/
structure DeltaRecord where
  tier_counts_A : List (String × ℤ)
  tier_counts_B : List (String × ℤ)
  median_A : Option Flt
  median_B : Option Flt
  physics : Option AxisDelta
  model_form : Option AxisDelta
deriving DecidableEq, Repr

structure GuardResult where
  ok : Bool
  reasons : List String
deriving DecidableEq, Repr

/-- Difference `median_B - median_A` when both are present (source:
`med_increase = float(medB) - float(medA)` guarded by a None check). -/
def medIncrease (a b : Option Flt) : Option Flt :=
  match a, b with
  | some x, some y => some (Flt.sub y x)
  | _, _ => none

/-- Test of one optional median check: exceeded iff both medians are
present and the increase is strictly above the threshold. -/
def medExceeds (a b : Option Flt) (thr : ℚ) : Bool :=
  match medIncrease a b with
  | some m => Flt.ltb (Flt.fin thr) m
  | none => false

/-- Reason list of one optional median check. -/
def medReason (a b : Option Flt) (thr : ℚ) (txt : String) : List String :=
  match medIncrease a b with
  | some m =>
      if Flt.ltb (Flt.fin thr) m then [txt ++ fltStr m ++ " > " ++ toString thr]
      else []
  | none => []

/-- Tier-count increase of an optional axis section (0 when absent). -/
def optRedIncrease (ax : Option AxisDelta) (key : String) : ℤ :=
  match ax with
  | some a => lookupZ a.tier_counts_B key - lookupZ a.tier_counts_A key
  | none => 0

/-- Whether the tier-count check of an optional axis section is exceeded;
an absent section never trips it. -/
def optRedExceeds (ax : Option AxisDelta) (key : String) (thr : ℤ) : Bool :=
  match ax with
  | some _ => thr < optRedIncrease ax key
  | none => false

/-- Reason list of the tier-count check of an optional axis section. -/
def optRedReasons (ax : Option AxisDelta) (key : String) (thr : ℤ)
    (txt : String) : List String :=
  if optRedExceeds ax key thr then
    [txt ++ toString (optRedIncrease ax key) ++ " > " ++ toString thr]
  else []

/-- Whether the median check of an optional axis section is exceeded. -/
def optMedExceeds (ax : Option AxisDelta) (thr : ℚ) : Bool :=
  match ax with
  | some a => medExceeds a.median_A a.median_B thr
  | none => false

/-- Reason list of the median check of an optional axis section. -/
def optMedReasons (ax : Option AxisDelta) (thr : ℚ) (txt : String) :
    List String :=
  match ax with
  | some a => medReason a.median_A a.median_B thr txt
  | none => []

/-- regression_guard of corpus/regression_guard.py: every configured check
is evaluated (no short-circuit), each exceeded check appends its reason,
and `ok` starts true and is cleared by any exceeded check.  The optional
physics / model-form checks run only when their section is present. -/
def regression_guard (delta : DeltaRecord)
    (max_red_increase : ℤ) (max_median_degradation_increase : ℚ)
    (max_physics_red_increase : ℤ)
    (max_physics_median_violation_increase : ℚ)
    (max_mfe_red_increase : ℤ)
    (max_mfe_median_worst_rel_deg_increase : ℚ) : GuardResult :=
  let red_increase :=
    lookupZ delta.tier_counts_B "RED" - lookupZ delta.tier_counts_A "RED"
  let c1 : Bool := max_red_increase < red_increase
  let r1 : List String :=
    if c1 then ["RED tier increase " ++ toString red_increase ++ " > "
      ++ toString max_red_increase] else []
  let c2 := medExceeds delta.median_A delta.median_B
      max_median_degradation_increase
  let r2 := medReason delta.median_A delta.median_B
      max_median_degradation_increase
      "Median relative degradation increase "
  let c3 := optRedExceeds delta.physics "PHYSICS-RED" max_physics_red_increase
  let r3 := optRedReasons delta.physics "PHYSICS-RED" max_physics_red_increase
      "PHYSICS-RED tier increase "
  let c4 := optMedExceeds delta.physics max_physics_median_violation_increase
  let r4 := optMedReasons delta.physics max_physics_median_violation_increase
      "Median physics max-violation increase "
  let c5 := optRedExceeds delta.model_form "MFE-RED" max_mfe_red_increase
  let r5 := optRedReasons delta.model_form "MFE-RED" max_mfe_red_increase
      "MFE-RED tier increase "
  let c6 := optMedExceeds delta.model_form
      max_mfe_median_worst_rel_deg_increase
  let r6 := optMedReasons delta.model_form
      max_mfe_median_worst_rel_deg_increase
      "Median MFE worst-relative-degradation increase "
  { ok := !(c1 || c2 || c3 || c4 || c5 || c6),
    reasons := r1 ++ r2 ++ r3 ++ r4 ++ r5 ++ r6 }

theorem length_if_singleton (c : Bool) (s : String) :
    (if c = true then [s] else []).length = c.toNat := by
  cases c <;> simp

theorem medReason_length (a b : Option Flt) (thr : ℚ) (txt : String) :
    (medReason a b thr txt).length = (medExceeds a b thr).toNat := by
  unfold medReason medExceeds
  cases h : medIncrease a b with
  | none => simp
  | some m => cases hltb : Flt.ltb (Flt.fin thr) m <;> simp [hltb]

theorem optRedReasons_length (ax : Option AxisDelta) (key : String)
    (thr : ℤ) (txt : String) :
    (optRedReasons ax key thr txt).length = (optRedExceeds ax key thr).toNat := by
  unfold optRedReasons
  exact length_if_singleton _ _

theorem optMedReasons_length (ax : Option AxisDelta) (thr : ℚ)
    (txt : String) :
    (optMedReasons ax thr txt).length = (optMedExceeds ax thr).toNat := by
  cases ax with
  | none => rfl
  | some a => exact medReason_length _ _ _ _

/-- The delta of the concrete C7 example: run A has tiers {GREEN, YELLOW},
run B has tiers {YELLOW, RED}, no medians and no optional sections. -/
def exampleDeltaC7 : DeltaRecord :=
  { tier_counts_A := [("GREEN", 1), ("YELLOW", 1)],
    tier_counts_B := [("YELLOW", 1), ("RED", 1)],
    median_A := none, median_B := none,
    physics := none, model_form := none }

/-- C7: the guard fails exactly when at least one configured check is
exceeded (RED-count increase, median-degradation increase, and the
physics / model-form counterparts when those sections are present); every
exceeded check contributes exactly one reason (no short-circuit), and the
concrete example A = {GREEN, YELLOW} vs B = {YELLOW, RED} under
`max_red_increase = 0` fails with the single reason citing the RED-count
increase. -/
theorem regression_guard_spec (delta : DeltaRecord) (t1 : ℤ) (t2 : ℚ)
    (t3 : ℤ) (t4 : ℚ) (t5 : ℤ) (t6 : ℚ) :
    ((regression_guard delta t1 t2 t3 t4 t5 t6).ok = false ↔
      (t1 < lookupZ delta.tier_counts_B "RED"
            - lookupZ delta.tier_counts_A "RED")
      ∨ medExceeds delta.median_A delta.median_B t2 = true
      ∨ optRedExceeds delta.physics "PHYSICS-RED" t3 = true
      ∨ optMedExceeds delta.physics t4 = true
      ∨ optRedExceeds delta.model_form "MFE-RED" t5 = true
      ∨ optMedExceeds delta.model_form t6 = true)
    ∧ (regression_guard delta t1 t2 t3 t4 t5 t6).reasons.length =
        (decide (t1 < lookupZ delta.tier_counts_B "RED"
            - lookupZ delta.tier_counts_A "RED") : Bool).toNat
        + (medExceeds delta.median_A delta.median_B t2).toNat
        + (optRedExceeds delta.physics "PHYSICS-RED" t3).toNat
        + (optMedExceeds delta.physics t4).toNat
        + (optRedExceeds delta.model_form "MFE-RED" t5).toNat
        + (optMedExceeds delta.model_form t6).toNat
    ∧ regression_guard exampleDeltaC7 0 0 0 0 0 0 =
        { ok := false, reasons := ["RED tier increase 1 > 0"] } := by
  refine ⟨?_, ?_, by decide⟩
  · have hok : (regression_guard delta t1 t2 t3 t4 t5 t6).ok =
        !(decide (t1 < lookupZ delta.tier_counts_B "RED"
            - lookupZ delta.tier_counts_A "RED")
          || medExceeds delta.median_A delta.median_B t2
          || optRedExceeds delta.physics "PHYSICS-RED" t3
          || optMedExceeds delta.physics t4
          || optRedExceeds delta.model_form "MFE-RED" t5
          || optMedExceeds delta.model_form t6) := rfl
    rw [hok, Bool.not_eq_false']
    simp only [Bool.or_eq_true, decide_eq_true_eq, or_assoc]
  · simp only [regression_guard, List.length_append, length_if_singleton,
      medReason_length, optRedReasons_length, optMedReasons_length]

/-! ### Generic stable insertion sort (models pandas mergesort /
Python sorted, both stable) -/

/-- Insert `a` before the first element `b` with `le a b`; with a total
`le` this is the insertion step of a stable insertion sort. -/
def insertLe {α : Type} (le : α → α → Bool) (a : α) : List α → List α
  | [] => [a]
  | b :: l => if le a b then a :: b :: l else b :: insertLe le a l

/-- Stable insertion sort by a total boolean `le`. -/
def insSortLe {α : Type} (le : α → α → Bool) (l : List α) : List α :=
  l.foldr (insertLe le) []

/-- Lexicographic comparison of character lists by code point, as Python
compares strings. -/
def charListLe : List Char → List Char → Bool
  | [], _ => true
  | _ :: _, [] => false
  | a :: as, b :: bs => if a.toNat < b.toNat then true
      else if b.toNat < a.toNat then false
      else charListLe as bs

/-- Python string `<=`. -/
def strLe (a b : String) : Bool := charListLe a.data b.data

/-! ### Robust selection (robustness/analysis.py) -/

/-- One row of the per-window scenario table built by
`load_scenario_metrics`. -/
structure ScenRow where
  scenario_id : String
  family : String
  window_id : String
  name : String
  ok : Bool
  n_scored : ℕ
  score_total : Flt
deriving DecidableEq, Repr

/-- Result dictionary of `select_robust_choice`. -/
structure SelectResult where
  ok : Bool
  error : Option String := none
  policy : String
  scenario_id : Option String := none
  score_total : Option Flt := none
  threshold : Option Flt := none
deriving DecidableEq, Repr

/-- Strict comparison used by the dataframe sort on the `score_total`
column: NaN keys are placed last (pandas `na_position` default). -/
def fltSortLt (a b : Flt) : Bool :=
  if a.isNan then false
  else if b.isNan then true
  else Flt.ltb a b

/-- Row ordering of `df.sort_values(["score_total", "scenario_id"],
kind="mergesort")`: by score, ties by scenario id; the mergesort kind is
stable, modelled by the stable insertion sort. -/
def rowLe (a b : ScenRow) : Bool :=
  if fltSortLt a.score_total b.score_total then true
  else if fltSortLt b.score_total a.score_total then false
  else strLe a.scenario_id b.scenario_id

/-- Fallback row for the head of a list known to be non-empty (never
reached in the guarded paths of the source). -/
def headDRow (l : List ScenRow) : ScenRow :=
  l.headD ⟨"", "", "", "", false, 0, Flt.nan⟩

/-- Model of `pandas.Series.quantile(0.75)` (linear interpolation over the
sorted non-NaN values). -/
def quantile75 (scores : List Flt) : Flt :=
  let vs := insSortLe Flt.leb (scores.filter fun x => !x.isNan)
  match vs with
  | [] => Flt.nan
  | _ :: _ =>
      let n := vs.length
      let pos : ℚ := (3 * ((n : ℚ) - 1)) / 4
      let i : ℕ := (⌊pos⌋).toNat
      let frac : ℚ := pos - (i : ℚ)
      let vi := vs.getD i Flt.nan
      let vj := vs.getD (i + 1) (vs.getD i Flt.nan)
      Flt.add vi (Flt.mul (Flt.sub vj vi) (Flt.fin frac))

/-- select_robust_choice of robustness/analysis.py.  The empty-table check
comes first and returns a non-ok result; the policy dispatch happens only
afterwards, and an unknown policy raises `ValueError` (modelled by
`Except.error`). -/
def select_robust_choice (df : List ScenRow) (policy : String) :
    Except String SelectResult :=
  if df.isEmpty then
    .ok { ok := false, error := some "no scenarios", policy := policy }
  else
    let df2 := insSortLe rowLe df
    if policy = "maximin" then
      let best := headDRow df2
      .ok { ok := true, policy := policy,
            scenario_id := some best.scenario_id,
            score_total := some best.score_total }
    else if policy = "quantile75" then
      let thr := quantile75 (df2.map fun r => r.score_total)
      let cand := df2.filter fun r => Flt.leb r.score_total thr
      let best := if cand.isEmpty then headDRow df2 else headDRow cand
      .ok { ok := true, policy := policy, threshold := some thr,
            scenario_id := some best.scenario_id,
            score_total := some best.score_total }
    else
      .error ("unknown policy: " ++ policy)

/-- C9 counterexample: with an empty scenario table and an unknown policy,
`select_robust_choice` does not raise — it returns the non-ok
"no scenarios" record, because the empty-table check precedes the policy
dispatch.  This refutes "the error is raised regardless of whether the
scenario table is empty". -/
theorem select_robust_choice_empty_unknown_no_raise :
    select_robust_choice [] "bogus"
      = .ok { ok := false, error := some "no scenarios", policy := "bogus" } := by
  rfl

/-- C9 (amended): for a policy other than "maximin" and "quantile75" the
selection raises the fatal `ValueError("unknown policy: ...")` whenever
the scenario table is non-empty; with an empty table it instead returns
the non-ok "no scenarios" record without raising (the emptiness check
precedes the policy check, and in the orchestrator the per-scenario
scoring has already run by the time `select_robust_choice` is called). -/
theorem select_robust_choice_unknown_policy_spec (df : List ScenRow)
    (policy : String) (h1 : policy ≠ "maximin") (h2 : policy ≠ "quantile75") :
    (df = [] → select_robust_choice df policy
        = .ok { ok := false, error := some "no scenarios", policy := policy })
    ∧ (df ≠ [] → select_robust_choice df policy
        = .error ("unknown policy: " ++ policy)) := by
  constructor
  · intro h
    subst h
    rfl
  · intro h
    have hempty : df.isEmpty = false := by
      cases df with
      | nil => exact absurd rfl h
      | cons a tl => rfl
    unfold select_robust_choice
    simp [hempty, h1, h2]

/-- C9 witness: a one-row table with the unknown policy "bogus" raises. -/
theorem select_robust_choice_unknown_policy_witness :
    select_robust_choice [⟨"s0", "window", "w00", "n", true, 1, Flt.fin 1⟩]
        "bogus" = .error ("unknown policy: " ++ "bogus") := by
  exact (select_robust_choice_unknown_policy_spec
    [⟨"s0", "window", "w00", "n", true, 1, Flt.fin 1⟩] "bogus"
    (by decide) (by decide)).2 (by simp)

/-! ### Scenario scoring (robustness/scoring.py, diagnostic_contracts.py) -/

/-- TraceSpec of diagnostic_contracts.py.  The CSV file the `csv` path
points to is folded into the record as its column map (the scorer reads it
with `pd.read_csv` before anything else). -/
structure TraceSpec where
  cols : List (String × List Flt)
  time_col : String
  value_col : String
  scale : ℚ
  sign : ℚ
deriving DecidableEq, Repr

/-- TraceSpec.apply: `(sign * scale) * y`, with IEEE semantics on the
special values. -/
def TraceSpec.apply (t : TraceSpec) (y : Flt) : Flt :=
  Flt.mul (Flt.fin (t.sign * t.scale)) y

/-- DiagnosticContract of diagnostic_contracts.py. -/
structure DiagnosticContract where
  name : String
  dtype : String
  exp : TraceSpec
  syn : TraceSpec
  units : Option String
  notes : Option String
deriving DecidableEq, Repr

/-- Column lookup in a CSV column map (`col in df.columns` / `df[col]`). -/
def lookupCol (cols : List (String × List Flt)) (k : String) :
    Option (List Flt) :=
  (cols.find? fun kv => kv.1 == k).map Prod.snd

/-- Per-contract metrics record appended to `per_contract`. -/
structure ContractMetrics where
  name : String
  dtype : String
  units : Option String
  n : ℕ
  rms : ℚ
  mae : ℚ
  max_abs : ℚ
deriving DecidableEq, Repr

/-- Ordering of the synthetic samples under `np.argsort(t_syn)`: by time
key with NaN keys last; equal keys keep их original order (the unstable
kind of numpy's argsort is observable only on duplicate time stamps). -/
def synPairLe (p q : Flt × Flt) : Bool :=
  if fltSortLt p.1 q.1 then true
  else if fltSortLt q.1 p.1 then false
  else true

/-- Model of `np.interp x xp fp` on the sorted sample list: clamp to the
end values outside the range, exact hit returns the sample value, and
between two samples interpolate linearly.  In the interpolating branch
`p.1 < x ≤ q.1` forces `p.1 < q.1`, so the slope denominator is nonzero. -/
def interpQ (x : ℚ) : List (ℚ × ℚ) → ℚ
  | [] => 0
  | [p] => p.2
  | p :: q :: rest =>
      if x ≤ p.1 then p.2
      else if x ≤ q.1 then
        if q.1 = x then q.2
        else p.2 + (q.2 - p.2) * (x - p.1) / (q.1 - p.1)
      else interpQ x (q :: rest)

/-- The `try` body of the loop of `score_contracts_in_window`: read the
two CSVs, check the four columns, apply sign/scale, mask the experimental
samples to finite values inside the window, require at least 3 of them,
interpolate the synthetic trace onto the filtered experimental timebase
and compute the residual metrics.  `sqrtf` abstracts `np.sqrt`, which has
no rational counterpart; nothing is assumed about it.  The synthetic
samples are taken through `Flt.toQ` after the argsort: the model covers
finite synthetic data (non-finite synthetic samples would merely propagate
NaN into the metric values, which no claim depends on). -/
def score_one_contract (sqrtf : ℚ → ℚ) (t_start t_end : ℚ)
    (c : DiagnosticContract) : Except String ContractMetrics :=
  match lookupCol c.exp.cols c.exp.time_col,
        lookupCol c.exp.cols c.exp.value_col with
  | some tExpRaw, some yExpRaw =>
      match lookupCol c.syn.cols c.syn.time_col,
            lookupCol c.syn.cols c.syn.value_col with
      | some tSynRaw, some ySynRaw =>
          let yExp := yExpRaw.map c.exp.apply
          let pts := (tExpRaw.zip yExp).filter fun p =>
            p.1.isFinite && p.2.isFinite
              && Flt.leb (Flt.fin t_start) p.1 && Flt.leb p.1 (Flt.fin t_end)
          if pts.length < 3 then
            .error (c.name
              ++ ": insufficient experimental points in window after filtering")
          else
            let ySyn := ySynRaw.map c.syn.apply
            match insSortLe synPairLe (tSynRaw.zip ySyn) with
            | [] => .error (c.name ++ ": array of sample points is empty")
            | sp :: sps =>
                let synQ := (sp :: sps).map fun p => (p.1.toQ, p.2.toQ)
                let rs := pts.map fun p => p.2.toQ - interpQ p.1.toQ synQ
                let n := rs.length
                let rms := sqrtf ((rs.map fun r => r * r).sum / (n : ℚ))
                let mae := (rs.map fun r => |r|).sum / (n : ℚ)
                let maxAbs := (rs.map fun r => |r|).foldl max 0
                .ok { name := c.name, dtype := c.dtype, units := c.units,
                      n := n, rms := rms, mae := mae, max_abs := maxAbs }
      | _, _ => .error (c.name ++ ": synthetic columns missing")
  | _, _ => .error (c.name ++ ": experimental columns missing")

/-- ScoreSummary of robustness/scoring.py. -/
structure ScoreSummary where
  ok : Bool
  n_contracts : ℕ
  n_scored : ℕ
  score_total : Flt
  errors : List String
deriving DecidableEq, Repr

/-- Arithmetic mean of a rational list (`np.mean`). -/
def qmean (l : List ℚ) : ℚ := l.sum / (l.length : ℚ)

/-- _score_from_metrics of robustness/scoring.py: the mean RMS across the
scored contracts, `+inf` when none scored (every appended record carries
an `rms` key, so the comprehension keeps them all). -/
def score_from_metrics (per : List ContractMetrics) : Flt :=
  match per with
  | [] => Flt.pinf
  | _ :: _ => Flt.fin (qmean (per.map fun m => m.rms))

/-- The contract loop: successes are appended to `per_contract`, caught
exceptions to `errors`, in input order, and a failure never stops the
remaining contracts from being scored. -/
def scoreLoop (sqrtf : ℚ → ℚ) (t_start t_end : ℚ) :
    List DiagnosticContract → List ContractMetrics × List String
  | [] => ([], [])
  | c :: cs =>
      let rest := scoreLoop sqrtf t_start t_end cs
      match score_one_contract sqrtf t_start t_end c with
      | .ok m => (m :: rest.1, rest.2)
      | .error e => (rest.1, e :: rest.2)

/-- score_contracts_in_window of robustness/scoring.py. -/
def score_contracts_in_window (sqrtf : ℚ → ℚ)
    (contracts : List DiagnosticContract) (t_start t_end : ℚ) :
    ScoreSummary × List ContractMetrics :=
  let acc := scoreLoop sqrtf t_start t_end contracts
  ({ ok := acc.2.isEmpty && !acc.1.isEmpty,
     n_contracts := contracts.length,
     n_scored := acc.1.length,
     score_total := score_from_metrics acc.1,
     errors := acc.2 }, acc.1)

/-- The success of one contract as an option (the record appended to
`per_contract`, if any). -/
def okPart (e : Except String ContractMetrics) : Option ContractMetrics :=
  match e with
  | .ok m => some m
  | .error _ => none

/-- The caught error message of one contract, if any. -/
def errPart (e : Except String ContractMetrics) : Option String :=
  match e with
  | .ok _ => none
  | .error s => some s

theorem scoreLoop_eq (sqrtf : ℚ → ℚ) (t0 t1 : ℚ)
    (cs : List DiagnosticContract) :
    scoreLoop sqrtf t0 t1 cs
      = (cs.filterMap fun c => okPart (score_one_contract sqrtf t0 t1 c),
         cs.filterMap fun c => errPart (score_one_contract sqrtf t0 t1 c)) := by
  induction cs with
  | nil => rfl
  | cons c tl ih =>
    simp only [scoreLoop, ih, List.filterMap_cons]
    cases h : score_one_contract sqrtf t0 t1 c <;> simp [okPart, errPart, h]

/-- C1: the scorer records exactly the per-contract successes (in order)
and exactly the caught failures (in order) — a failing contract never
prevents the remaining contracts from being scored; `score_total` is the
arithmetic mean of the successes' RMS values and `+inf` when none scored;
`ok` holds iff no contract failed and at least one scored; and the counts
are the number of contracts and of successes. -/
theorem score_contracts_in_window_spec (sqrtf : ℚ → ℚ)
    (contracts : List DiagnosticContract) (t0 t1 : ℚ) :
    (score_contracts_in_window sqrtf contracts t0 t1).2
        = (contracts.filterMap fun c =>
            okPart (score_one_contract sqrtf t0 t1 c))
    ∧ (score_contracts_in_window sqrtf contracts t0 t1).1.errors
        = (contracts.filterMap fun c =>
            errPart (score_one_contract sqrtf t0 t1 c))
    ∧ (score_contracts_in_window sqrtf contracts t0 t1).1.score_total
        = (if (score_contracts_in_window sqrtf contracts t0 t1).2 = []
           then Flt.pinf
           else Flt.fin (qmean
             (((score_contracts_in_window sqrtf contracts t0 t1).2).map
               fun m => m.rms)))
    ∧ ((score_contracts_in_window sqrtf contracts t0 t1).1.ok = true ↔
        (score_contracts_in_window sqrtf contracts t0 t1).1.errors = []
        ∧ (score_contracts_in_window sqrtf contracts t0 t1).2 ≠ [])
    ∧ (score_contracts_in_window sqrtf contracts t0 t1).1.n_scored
        = (score_contracts_in_window sqrtf contracts t0 t1).2.length
    ∧ (score_contracts_in_window sqrtf contracts t0 t1).1.n_contracts
        = contracts.length := by
  rcases hloop : scoreLoop sqrtf t0 t1 contracts with ⟨per, errs⟩
  have h12 := scoreLoop_eq sqrtf t0 t1 contracts
  rw [hloop, Prod.mk.injEq] at h12
  refine ⟨?_, ?_, ?_, ?_, ?_, ?_⟩ <;>
    simp only [score_contracts_in_window, hloop]
  · exact h12.1
  · exact h12.2
  · cases per <;> simp [score_from_metrics]
  · simp [Bool.and_eq_true, List.isEmpty_eq_true]

/-! ### Order facts about the stable sort -/

theorem charListLe_refl (a : List Char) : charListLe a a = true := by
  induction a with
  | nil => rfl
  | cons x xs ih => simp [charListLe, ih]

theorem charListLe_total (a b : List Char) :
    charListLe a b = true ∨ charListLe b a = true := by
  induction a generalizing b with
  | nil => left; rfl
  | cons x xs ih =>
    cases b with
    | nil => right; rfl
    | cons y ys =>
      rcases Nat.lt_trichotomy x.toNat y.toNat with h | h | h
      · left; simp [charListLe, h]
      · rcases ih ys with h2 | h2
        · left; simp [charListLe, h, h2]
        · right; simp [charListLe, h.symm, h2]
      · right; simp [charListLe, h]

theorem charListLe_trans {a b c : List Char}
    (h1 : charListLe a b = true) (h2 : charListLe b c = true) :
    charListLe a c = true := by
  induction a generalizing b c with
  | nil => rfl
  | cons x xs ih =>
    cases b with
    | nil => simp [charListLe] at h1
    | cons y ys =>
      cases c with
      | nil => simp [charListLe] at h2
      | cons z zs =>
        simp only [charListLe] at h1 h2 ⊢
        by_cases hxy : x.toNat < y.toNat
        · by_cases hyz : y.toNat < z.toNat
          · simp [Nat.lt_trans hxy hyz]
          · simp only [if_pos hxy] at h1
            by_cases hzy : z.toNat < y.toNat
            · simp [hyz, hzy] at h2
            · have hyz2 : y.toNat = z.toNat := by omega
              simp [show x.toNat < z.toNat by omega]
        · by_cases hyx : y.toNat < x.toNat
          · simp [hxy, hyx] at h1
          · have hxy2 : x.toNat = y.toNat := by omega
            simp only [if_neg hxy, if_neg hyx] at h1
            by_cases hyz : y.toNat < z.toNat
            · simp [show x.toNat < z.toNat by omega]
            · by_cases hzy : z.toNat < y.toNat
              · simp [hyz, hzy] at h2
              · simp only [if_neg hyz, if_neg hzy] at h2
                simp [show ¬ x.toNat < z.toNat by omega,
                  show ¬ z.toNat < x.toNat by omega, ih h1 h2]

theorem strLe_refl (a : String) : strLe a a = true := charListLe_refl _

theorem strLe_total (a b : String) : strLe a b = true ∨ strLe b a = true :=
  charListLe_total _ _

theorem strLe_trans {a b c : String} (h1 : strLe a b = true)
    (h2 : strLe b c = true) : strLe a c = true :=
  charListLe_trans h1 h2

theorem mem_insertLe {α : Type} (le : α → α → Bool) (a x : α) (l : List α) :
    x ∈ insertLe le a l ↔ x = a ∨ x ∈ l := by
  induction l with
  | nil => simp [insertLe]
  | cons b tl ih =>
    by_cases h : le a b = true
    · simp [insertLe, h]
    · simp only [insertLe, if_neg h, List.mem_cons, ih]
      tauto

theorem perm_insertLe {α : Type} (le : α → α → Bool) (a : α) (l : List α) :
    List.Perm (insertLe le a l) (a :: l) := by
  induction l with
  | nil => exact List.Perm.refl _
  | cons b tl ih =>
    by_cases h : le a b = true
    · simp [insertLe, h]
    · simp only [insertLe, if_neg h]
      exact ((ih.cons b).trans (List.Perm.swap a b tl))

theorem perm_insSortLe {α : Type} (le : α → α → Bool) (l : List α) :
    List.Perm (insSortLe le l) l := by
  induction l with
  | nil => exact List.Perm.refl _
  | cons a tl ih =>
    exact (perm_insertLe le a (insSortLe le tl)).trans (ih.cons a)

theorem pairwise_insertLe {α : Type} (le : α → α → Bool)
    (htot : ∀ a b, le a b = true ∨ le b a = true)
    (htrans : ∀ {a b c}, le a b = true → le b c = true → le a c = true)
    (a : α) {l : List α}
    (hl : List.Pairwise (fun x y => le x y = true) l) :
    List.Pairwise (fun x y => le x y = true) (insertLe le a l) := by
  induction hl with
  | nil => simp [insertLe]
  | @cons b tl hb htl ih =>
    by_cases h : le a b = true
    · simp only [insertLe, if_pos h]
      refine List.Pairwise.cons ?_ (List.Pairwise.cons hb htl)
      intro x hx
      rcases List.mem_cons.mp hx with rfl | hx
      · exact h
      · exact htrans h (hb x hx)
    · simp only [insertLe, if_neg h]
      refine List.Pairwise.cons ?_ ih
      intro x hx
      rcases (mem_insertLe le a x tl).mp hx with rfl | hx
      · rcases htot x b with h2 | h2
        · exact absurd h2 h
        · exact h2
      · exact hb x hx

theorem pairwise_insSortLe {α : Type} (le : α → α → Bool)
    (htot : ∀ a b, le a b = true ∨ le b a = true)
    (htrans : ∀ {a b c}, le a b = true → le b c = true → le a c = true)
    (l : List α) :
    List.Pairwise (fun x y => le x y = true) (insSortLe le l) := by
  induction l with
  | nil => exact List.Pairwise.nil
  | cons a tl ih => exact pairwise_insertLe le htot @htrans a ih

theorem find?_min_of_pairwise {α : Type} (le : α → α → Bool)
    (p : α → Bool) (l : List α) (s : α)
    (hrefl : ∀ a, le a a = true)
    (hp : List.Pairwise (fun x y => le x y = true) l)
    (h : l.find? p = some s) :
    p s = true ∧ ∀ m ∈ l, p m = true → le s m = true := by
  induction l with
  | nil => simp at h
  | cons x tl ih =>
    rw [List.pairwise_cons] at hp
    obtain ⟨hx, htl⟩ := hp
    by_cases hpx : p x = true
    · rw [List.find?_cons_of_pos _ hpx] at h
      cases h
      refine ⟨hpx, ?_⟩
      intro m hm _
      rcases List.mem_cons.mp hm with rfl | hm
      · exact hrefl _
      · exact hx m hm
    · rw [List.find?_cons_of_neg _ (by simpa using hpx)] at h
      obtain ⟨hps, hmin⟩ := ih htl h
      refine ⟨hps, ?_⟩
      intro m hm hpm
      rcases List.mem_cons.mp hm with rfl | hm
      · exact absurd hpm hpx
      · exact hmin m hm hpm

/-! ### Forward checks (model_form/forward.py, model_form/schema.py) -/

/-- Whether `needle` is a prefix-wise start of `hay` (helper of the Python
`in` substring test). -/
def startsWithCL : List Char → List Char → Bool
  | [], _ => true
  | _ :: _, [] => false
  | a :: as, b :: bs => a == b && startsWithCL as bs

/-- Python substring containment `needle in hay`. -/
def containsSub (needle : List Char) : List Char → Bool
  | [] => needle.isEmpty
  | c :: tl => startsWithCL needle (c :: tl) || containsSub needle tl

/-- CVSplit of model_form/schema.py. -/
structure CVSplit where
  split_id : String
  kind : String
  holdout : List String
  details : List (String × String)
deriving DecidableEq, Repr

/-- ForwardCheckRow of model_form/schema.py. -/
structure ForwardCheckRow where
  split_id : String
  window_id : String
  scenario_id : Option String
  metric : String
  baseline_value : Option Flt
  heldout_value : Option Flt
  relative_degradation : Option Flt
  notes : String
deriving DecidableEq, Repr

/-- _safe_float of model_form/forward.py: `None` stays `None` and NaN
becomes `None`. -/
def safeFloat (x : Option Flt) : Option Flt :=
  match x with
  | none => none
  | some v => if v.isNan then none else some v

/-- _rel_deg of model_form/forward.py:
`(h - b) / max(|b|, 1e-12-guarded 1.0)`, `None` when either side is
missing. -/
def relDeg (b h : Option Flt) : Option Flt :=
  match b, h with
  | some b, some h =>
      let denom := if Flt.ltb (Flt.fin (1 / 1000000000000)) (Flt.fabs b)
        then Flt.fabs b else Flt.fin 1
      some (Flt.div (Flt.sub h b) denom)
  | _, _ => none

/-- _scenario_metric of model_form/forward.py.  When the scenario's
`metrics.json` exists the source evaluates
`obj.get(primary_metric, obj.get("score_total"), obj.get("chi2_total"))` —
`dict.get` takes at most two arguments, so this raises `TypeError` for
every existing metrics file; when the file does not exist it returns
`None`.  `metricsFile` models the existence of
`scenarios/<scenario_id>/metrics.json`. -/
def scenario_metric (metricsFile : String → Bool) (sid : String) :
    Except String (Option Flt) :=
  if metricsFile sid then
    .error "TypeError: get expected at most 2 arguments, got 3"
  else
    .ok none

/-- The held-out scenario selection of `run_forward_checks`: over the
sorted scenario directory names, the first one containing any holdout
identifier as a substring (`None` when the directory listing or the
holdout list is empty, or nothing matches). -/
def matchScenario (scenario_ids : List String) (holdout : List String) :
    Option String :=
  if (insSortLe strLe scenario_ids).isEmpty || holdout.isEmpty then none
  else (insSortLe strLe scenario_ids).find? fun s =>
    holdout.any fun h => containsSub h.data s.data

/-- One split×window step of the row loop of `run_forward_checks`:
select the held-out scenario by substring, read its metric (which raises
whenever the metrics file exists), and build the row. -/
def forward_check_row (metricsFile : String → Bool) (window_id : String)
    (scenario_ids : List String) (baseline : Option Flt) (sp : CVSplit)
    (primary_metric : String) : Except String ForwardCheckRow :=
  match matchScenario scenario_ids sp.holdout with
  | some s =>
      match scenario_metric metricsFile s with
      | .error e => .error e
      | .ok held =>
          .ok { split_id := sp.split_id, window_id := window_id,
                scenario_id := some s, metric := primary_metric,
                baseline_value := baseline, heldout_value := held,
                relative_degradation := relDeg baseline held,
                notes := "matched scenario by substring" }
  | none =>
      .ok { split_id := sp.split_id, window_id := window_id,
            scenario_id := none, metric := primary_metric,
            baseline_value := baseline, heldout_value := none,
            relative_degradation := relDeg baseline none,
            notes := "no matching scenario found" }

/-- The match predicate of the selection. -/
def holdoutMatches (holdout : List String) (s : String) : Bool :=
  holdout.any fun h => containsSub h.data s.data

theorem matchScenario_min (ids holdout : List String) (s : String)
    (h : matchScenario ids holdout = some s) :
    holdoutMatches holdout s = true
      ∧ ∀ m ∈ ids, holdoutMatches holdout m = true → strLe s m = true := by
  unfold matchScenario at h
  by_cases hg : ((insSortLe strLe ids).isEmpty || holdout.isEmpty) = true
  · simp [hg] at h
  · rw [if_neg hg] at h
    have hpw := pairwise_insSortLe strLe strLe_total
      (fun {a b c} => strLe_trans) ids
    have hmin := find?_min_of_pairwise strLe
      (fun s => holdout.any fun h => containsSub h.data s.data)
      (insSortLe strLe ids) s strLe_refl hpw h
    refine ⟨hmin.1, ?_⟩
    intro m hm hmatch
    exact hmin.2 m (((perm_insSortLe strLe ids).mem_iff).mpr hm) hmatch

/-- C10: the forward check selects the lexicographically smallest sorted
scenario id containing any holdout identifier as a substring; when a
scenario is selected and its metric read succeeds (which in this code
happens exactly when its metrics file is absent), the row records it with
the fixed note "matched scenario by substring" — no tie flag, however many
ids matched; when nothing matches, the row records no scenario and
`relative_degradation = None`. -/
theorem forward_check_row_spec (metricsFile : String → Bool)
    (wid : String) (ids : List String) (baseline : Option Flt)
    (sp : CVSplit) (pm : String) :
    (∀ s, matchScenario ids sp.holdout = some s →
      holdoutMatches sp.holdout s = true
      ∧ (∀ m ∈ ids, holdoutMatches sp.holdout m = true → strLe s m = true)
      ∧ (metricsFile s = false →
          forward_check_row metricsFile wid ids baseline sp pm
            = .ok { split_id := sp.split_id, window_id := wid,
                    scenario_id := some s, metric := pm,
                    baseline_value := baseline, heldout_value := none,
                    relative_degradation := none,
                    notes := "matched scenario by substring" })
      ∧ (metricsFile s = true →
          forward_check_row metricsFile wid ids baseline sp pm
            = .error "TypeError: get expected at most 2 arguments, got 3"))
    ∧ (matchScenario ids sp.holdout = none →
        forward_check_row metricsFile wid ids baseline sp pm
          = .ok { split_id := sp.split_id, window_id := wid,
                  scenario_id := none, metric := pm,
                  baseline_value := baseline, heldout_value := none,
                  relative_degradation := none,
                  notes := "no matching scenario found" }) := by
  constructor
  · intro s hs
    obtain ⟨hmatch, hmin⟩ := matchScenario_min ids sp.holdout s hs
    refine ⟨hmatch, hmin, ?_, ?_⟩
    · intro hfile
      unfold forward_check_row
      rw [hs]
      simp [scenario_metric, hfile, relDeg]
    · intro hfile
      unfold forward_check_row
      rw [hs]
      simp [scenario_metric, hfile]
  · intro hnone
    unfold forward_check_row
    rw [hnone]
    rcases baseline with _ | b <;> rfl

/-- C10 witness: ids {"scen_B_loop", "scen_A_loop"} with holdout {"loop"}
both match; the sorted first (lexicographically smallest) "scen_A_loop" is
chosen with the constant note, and with holdout {"zz"} nothing matches. -/
theorem forward_check_row_spec_witness :
    (forward_check_row (fun _ => false) "w00"
        ["scen_B_loop", "scen_A_loop"] none
        ⟨"loo_loop", "loo", ["loop"], []⟩ "score_total"
      = .ok { split_id := "loo_loop", window_id := "w00",
              scenario_id := some "scen_A_loop", metric := "score_total",
              baseline_value := none, heldout_value := none,
              relative_degradation := none,
              notes := "matched scenario by substring" })
    ∧ strLe "scen_A_loop" "scen_B_loop" = true
    ∧ (forward_check_row (fun _ => false) "w00"
        ["scen_B_loop", "scen_A_loop"] none
        ⟨"loo_zz", "loo", ["zz"], []⟩ "score_total"
      = .ok { split_id := "loo_zz", window_id := "w00",
              scenario_id := none, metric := "score_total",
              baseline_value := none, heldout_value := none,
              relative_degradation := none,
              notes := "no matching scenario found" }) := by
  have h1 := (forward_check_row_spec (fun _ => false) "w00"
      ["scen_B_loop", "scen_A_loop"] none
      ⟨"loo_loop", "loo", ["loop"], []⟩ "score_total").1
      "scen_A_loop" (by decide)
  have h2 := (forward_check_row_spec (fun _ => false) "w00"
      ["scen_B_loop", "scen_A_loop"] none
      ⟨"loo_zz", "loo", ["zz"], []⟩ "score_total").2 (by decide)
  exact ⟨h1.2.2.1 rfl,
    h1.2.1 "scen_B_loop" (by decide) (by decide), h2⟩

/-! ### Phase consistency (robustness/phase_consistency.py) -/

/-- One row of the per-window dataframe handed to
`compute_phase_consistency` (chosen scenario and score per window). -/
structure PWRow where
  window_id : String
  scenario_id : String
  score_total : Flt
  t_start : ℚ
  t_end : ℚ
deriving DecidableEq, Repr

/-- One phase interval of the phase timeline. -/
structure PhaseDef where
  phase : String
  t_start : ℚ
  t_end : ℚ
deriving DecidableEq, Repr

/-- _phase_for_mid of phase_consistency.py: the first phase interval with
`t_start ≤ mid < t_end`. -/
def phaseForMid (phases : List PhaseDef) (x : ℚ) : Option String :=
  (phases.find? fun ph => decide (ph.t_start ≤ x) && decide (x < ph.t_end)).map
    fun ph => ph.phase

/-- assign_windows_to_phases: each window is tagged with the phase holding
its midpoint `0.5 * (t_start + t_end)`. -/
def assign_windows_to_phases (rows : List PWRow) (phases : List PhaseDef) :
    List (PWRow × Option String) :=
  rows.map fun r => (r, phaseForMid phases ((r.t_start + r.t_end) / 2))

/-- Adjacent scenario flips of the window sequence. -/
def countFlips : List String → ℕ
  | [] => 0
  | [_] => 0
  | a :: b :: tl => (if a = b then 0 else 1) + countFlips (b :: tl)

/-- Maximal multiplicity of a scenario id (`value_counts().max()`). -/
def maxCount (l : List String) : ℕ :=
  (l.map fun s => l.count s).foldl max 0

/-- Per-phase entry of the scorecard: either the non-ok "no windows
assigned" entry or the statistics entry. -/
inductive PhaseOut where
  | emptyPhase (phase : String)
  | stats (phase : String) (n_windows : ℕ) (dominant_scenario_id : String)
      (dominant_fraction : ℚ) (relative_score_drift : Flt) (flip_rate : ℚ)
      (label : String)
deriving DecidableEq, Repr

/-- Severity ranking of the global-label fold (`order.get(label, 99)`). -/
def sevRank (l : String) : ℕ :=
  if l = "PHASE-BREAKING" then 2
  else if l = "PHASE-DRIFTING" then 1
  else if l = "PHASE-CONSISTENT" then 0
  else 99

/-- The label of a statistics entry, `none` for the non-ok entry. -/
def statsLabel : PhaseOut → Option String
  | PhaseOut.stats _ _ _ _ _ _ lb => some lb
  | PhaseOut.emptyPhase _ => none

/-- Result of `compute_phase_consistency`. -/
inductive PCResult where
  | emptyInput
  | done (global_label : Option String) (phases : List PhaseOut)
deriving DecidableEq, Repr

/-- The per-phase computation of compute_phase_consistency: the phase's
windows sorted by window id (stable mergesort), dominant scenario with the
lexicographic tie-break, dominant fraction, relative score drift (`+inf`
when the minimum score is not positive), flip rate, and the three-way
classification. -/
def phaseStats (assigned : List (PWRow × Option String)) (phd : PhaseDef)
    (dominant_fraction_green max_rel_score_drift_green
      max_flip_rate_yellow : ℚ) : PhaseOut :=
  let ph := phd.phase
  let dph := insSortLe (fun a b => strLe a.window_id b.window_id)
    ((assigned.filter fun p => p.2 == some ph).map Prod.fst)
  match dph with
  | [] => PhaseOut.emptyPhase ph
  | _ :: _ =>
      let scen := dph.map fun r => r.scenario_id
      let mc := maxCount scen
      let dominant := (insSortLe strLe
        (scen.dedup.filter fun s => scen.count s = mc)).headD ""
      let domFrac : ℚ := (mc : ℚ) / (dph.length : ℚ)
      let scores := dph.map fun r => r.score_total
      let smin := fminSkip scores
      let smax := fmaxSkip scores
      let drift := if Flt.ltb (Flt.fin 0) smin
        then Flt.div (Flt.sub smax smin) smin else Flt.pinf
      let flipRate : ℚ := (countFlips scen : ℚ)
          / ((max 1 (dph.length - 1) : ℕ) : ℚ)
      let label :=
        if dominant_fraction_green ≤ domFrac
            ∧ Flt.leb drift (Flt.fin max_rel_score_drift_green) = true
        then "PHASE-CONSISTENT"
        else if flipRate ≤ max_flip_rate_yellow then "PHASE-DRIFTING"
        else "PHASE-BREAKING"
      PhaseOut.stats ph dph.length dominant domFrac drift flipRate label

/-- compute_phase_consistency of robustness/phase_consistency.py. -/
def compute_phase_consistency (rows : List PWRow) (phases : List PhaseDef)
    (dominant_fraction_green max_rel_score_drift_green
      max_flip_rate_yellow : ℚ) : PCResult :=
  if rows.isEmpty then PCResult.emptyInput
  else
    let assigned := assign_windows_to_phases rows phases
    let outs := phases.map fun phd =>
      phaseStats assigned phd dominant_fraction_green
        max_rel_score_drift_green max_flip_rate_yellow
    let labels := outs.filterMap statsLabel
    let global : Option String :=
      match labels with
      | [] => none
      | l0 :: ls => some (ls.foldl
          (fun acc l => if sevRank acc < sevRank l then l else acc) l0)
    PCResult.done global outs

/-- The phase list of a result (empty for the empty-input record). -/
def pcPhases : PCResult → List PhaseOut
  | PCResult.emptyInput => []
  | PCResult.done _ ps => ps

theorem foldl_max_le (xs : List ℕ) (init L : ℕ) (h0 : init ≤ L)
    (hall : ∀ x ∈ xs, x ≤ L) : xs.foldl max init ≤ L := by
  induction xs generalizing init with
  | nil => exact h0
  | cons x tl ih =>
    exact ih (max init x) (max_le h0 (hall x (List.mem_cons_self x tl)))
      fun y hy => hall y (List.mem_cons_of_mem x hy)

theorem maxCount_le_length (l : List String) : maxCount l ≤ l.length := by
  refine foldl_max_le _ 0 l.length (Nat.zero_le _) ?_
  intro x hx
  obtain ⟨s, _, rfl⟩ := List.mem_map.mp hx
  exact List.count_le_length s l

/-- The global-label fold returns an element of the list attaining the
maximal severity (strict improvement keeps the first maximal label, as
Python's stable reverse sort does). -/
theorem foldl_sev_spec (l0 : String) (ls : List String) :
    (ls.foldl (fun acc l => if sevRank acc < sevRank l then l else acc) l0 = l0
      ∨ ls.foldl (fun acc l => if sevRank acc < sevRank l then l else acc) l0 ∈ ls)
    ∧ sevRank l0
        ≤ sevRank (ls.foldl (fun acc l => if sevRank acc < sevRank l then l else acc) l0)
    ∧ ∀ l ∈ ls, sevRank l
        ≤ sevRank (ls.foldl (fun acc l => if sevRank acc < sevRank l then l else acc) l0) := by
  induction ls generalizing l0 with
  | nil => exact ⟨Or.inl rfl, le_refl _, by simp⟩
  | cons x tl ih =>
    simp only [List.foldl_cons]
    by_cases h : sevRank l0 < sevRank x
    · rw [if_pos h]
      obtain ⟨hmem, hle, hall⟩ := ih x
      refine ⟨?_, le_trans (le_of_lt h) hle, ?_⟩
      · rcases hmem with h2 | h2
        · refine Or.inr ?_
          rw [h2]
          exact List.mem_cons_self x tl
        · exact Or.inr (List.mem_cons_of_mem x h2)
      · intro l hl
        rcases List.mem_cons.mp hl with rfl | hl
        · exact hle
        · exact hall l hl
    · rw [if_neg h]
      obtain ⟨hmem, hle, hall⟩ := ih l0
      refine ⟨?_, hle, ?_⟩
      · rcases hmem with h2 | h2
        · exact Or.inl h2
        · exact Or.inr (List.mem_cons_of_mem x h2)
      · intro l hl
        rcases List.mem_cons.mp hl with rfl | hl
        · exact le_trans (le_of_not_lt h) hle
        · exact hall l hl

theorem phaseStats_stats_spec (assigned : List (PWRow × Option String))
    (phd : PhaseDef) (g dg fy : ℚ) (ph : String) (n : ℕ) (dom : String)
    (frac : ℚ) (drift : Flt) (flip : ℚ) (label : String)
    (h : phaseStats assigned phd g dg fy
        = PhaseOut.stats ph n dom frac drift flip label) :
    (0 ≤ frac ∧ frac ≤ 1)
    ∧ (label = "PHASE-CONSISTENT" ↔
        (g ≤ frac ∧ Flt.leb drift (Flt.fin dg) = true))
    ∧ (label = "PHASE-DRIFTING" ↔
        (¬(g ≤ frac ∧ Flt.leb drift (Flt.fin dg) = true) ∧ flip ≤ fy))
    ∧ (label = "PHASE-BREAKING" ↔
        (¬(g ≤ frac ∧ Flt.leb drift (Flt.fin dg) = true) ∧ ¬ flip ≤ fy)) := by
  unfold phaseStats at h
  dsimp only [] at h
  split at h
  · exact absurd h (by simp)
  · rename_i r0 rest heq
    rw [PhaseOut.stats.injEq] at h
    obtain ⟨hph, hn, hdom, hfrac, hdrift, hflip, hlabel⟩ := h
    have hlen : 0 < (insSortLe (fun a b => strLe a.window_id b.window_id)
        ((assigned.filter fun p => p.2 == some phd.phase).map Prod.fst)).length := by
      rw [heq]
      exact Nat.succ_pos _
    constructor
    · rw [← hfrac]
      constructor
      · positivity
      · rw [div_le_one (by exact_mod_cast hlen)]
        have hmc := maxCount_le_length ((insSortLe
          (fun a b => strLe a.window_id b.window_id)
          ((assigned.filter fun p => p.2 == some phd.phase).map
            Prod.fst)).map fun r => r.scenario_id)
        rw [List.length_map] at hmc
        exact_mod_cast hmc
    · rw [← hlabel, ← hfrac, ← hdrift, ← hflip]
      by_cases hc : g ≤ (maxCount ((insSortLe
            (fun a b => strLe a.window_id b.window_id)
            ((assigned.filter fun p => p.2 == some phd.phase).map
              Prod.fst)).map fun r => r.scenario_id) : ℚ)
          / ((insSortLe (fun a b => strLe a.window_id b.window_id)
            ((assigned.filter fun p => p.2 == some phd.phase).map
              Prod.fst)).length : ℚ)
          ∧ Flt.leb (if Flt.ltb (Flt.fin 0) (fminSkip ((insSortLe
              (fun a b => strLe a.window_id b.window_id)
              ((assigned.filter fun p => p.2 == some phd.phase).map
                Prod.fst)).map fun r => r.score_total))
            then Flt.div (Flt.sub (fmaxSkip ((insSortLe
              (fun a b => strLe a.window_id b.window_id)
              ((assigned.filter fun p => p.2 == some phd.phase).map
                Prod.fst)).map fun r => r.score_total)) (fminSkip ((insSortLe
              (fun a b => strLe a.window_id b.window_id)
              ((assigned.filter fun p => p.2 == some phd.phase).map
                Prod.fst)).map fun r => r.score_total))) (fminSkip ((insSortLe
              (fun a b => strLe a.window_id b.window_id)
              ((assigned.filter fun p => p.2 == some phd.phase).map
                Prod.fst)).map fun r => r.score_total))
            else Flt.pinf) (Flt.fin dg) = true
      · simp only [if_pos hc]
        exact ⟨iff_of_true trivial hc,
          iff_of_false (by decide) fun hx => hx.1 hc,
          iff_of_false (by decide) fun hx => hx.1 hc⟩
      · simp only [if_neg hc]
        by_cases hd : (countFlips ((insSortLe
              (fun a b => strLe a.window_id b.window_id)
              ((assigned.filter fun p => p.2 == some phd.phase).map
                Prod.fst)).map fun r => r.scenario_id) : ℚ)
            / ((max 1 ((insSortLe (fun a b => strLe a.window_id b.window_id)
              ((assigned.filter fun p => p.2 == some phd.phase).map
                Prod.fst)).length - 1) : ℕ) : ℚ) ≤ fy
        · simp only [if_pos hd]
          exact ⟨iff_of_false (by decide) hc,
            iff_of_true trivial ⟨hc, hd⟩,
            iff_of_false (by decide) fun hx => hx.2 hd⟩
        · simp only [if_neg hd]
          exact ⟨iff_of_false (by decide) hc,
            iff_of_false (by decide) fun hx => hd hx.2,
            iff_of_true trivial ⟨hc, hd⟩⟩

/-- The two flat-top windows of the concrete C5 example: the same chosen
scenario "A" with scores 10.0 and 10.2. -/
def exampleRowsC5 : List PWRow :=
  [⟨"w00", "A", Flt.fin 10, 2/5, 3/5⟩,
   ⟨"w01", "A", Flt.fin (51/5), 9/20, 13/20⟩]

/-- The single phase of the concrete C5 example. -/
def examplePhasesC5 : List PhaseDef := [⟨"flat_top", 0, 1⟩]

/-- C5: every per-phase statistics entry has a dominant fraction in [0,1]
and its label follows the three-way rule (CONSISTENT iff the dominant
fraction reaches the green threshold and the drift stays under the green
drift threshold, else DRIFTING iff the flip rate stays under the yellow
threshold, else BREAKING); the global label is a phase label of maximal
severity (BREAKING > DRIFTING > CONSISTENT); and the concrete example of
two flat-top windows with the same scenario and scores 10.0, 10.2 under
thresholds (0.6, 0.2, 0.9) yields dominant fraction 1 and label
PHASE-CONSISTENT. -/
theorem compute_phase_consistency_spec (rows : List PWRow)
    (phases : List PhaseDef) (g dg fy : ℚ) :
    (∀ ph n dom frac drift flip label,
      PhaseOut.stats ph n dom frac drift flip label
          ∈ pcPhases (compute_phase_consistency rows phases g dg fy) →
        (0 ≤ frac ∧ frac ≤ 1)
        ∧ (label = "PHASE-CONSISTENT" ↔
            (g ≤ frac ∧ Flt.leb drift (Flt.fin dg) = true))
        ∧ (label = "PHASE-DRIFTING" ↔
            (¬(g ≤ frac ∧ Flt.leb drift (Flt.fin dg) = true) ∧ flip ≤ fy))
        ∧ (label = "PHASE-BREAKING" ↔
            (¬(g ≤ frac ∧ Flt.leb drift (Flt.fin dg) = true) ∧ ¬ flip ≤ fy)))
    ∧ (∀ glb outs, compute_phase_consistency rows phases g dg fy
          = PCResult.done glb outs →
        ∀ l0, glb = some l0 →
          (∃ o ∈ outs, statsLabel o = some l0)
          ∧ ∀ o ∈ outs, ∀ lb, statsLabel o = some lb →
              sevRank lb ≤ sevRank l0)
    ∧ compute_phase_consistency exampleRowsC5 examplePhasesC5
        (3/5) (1/5) (9/10)
      = PCResult.done (some "PHASE-CONSISTENT")
          [PhaseOut.stats "flat_top" 2 "A" 1 (Flt.fin (1/50)) 0
            "PHASE-CONSISTENT"] := by
  refine ⟨?_, ?_, ?_⟩
  · intro ph n dom frac drift flip label hmem
    by_cases hre : rows.isEmpty
    · rw [compute_phase_consistency, if_pos hre] at hmem
      simp [pcPhases] at hmem
    · rw [compute_phase_consistency, if_neg hre] at hmem
      simp only [pcPhases, List.mem_map] at hmem
      obtain ⟨phd, _, heq⟩ := hmem
      exact phaseStats_stats_spec _ phd g dg fy ph n dom frac drift flip
        label heq
  · intro glb outs hres l0 hl0
    by_cases hre : rows.isEmpty
    · rw [compute_phase_consistency, if_pos hre] at hres
      cases hres
    · rw [compute_phase_consistency, if_neg hre] at hres
      rw [PCResult.done.injEq] at hres
      obtain ⟨hglb, houts⟩ := hres
      rcases hlabels : (phases.map fun phd =>
          phaseStats (assign_windows_to_phases rows phases) phd g dg
            fy).filterMap statsLabel with _ | ⟨lz, ls⟩
      · rw [hlabels] at hglb
        rw [← hglb] at hl0
        cases hl0
      · rw [hlabels] at hglb
        rw [← hglb] at hl0
        rw [Option.some.injEq] at hl0
        obtain ⟨hfold, hle0, hall⟩ := foldl_sev_spec lz ls
        constructor
        · have hmem : l0 ∈ lz :: ls := by
            rw [← hl0]
            rcases hfold with h2 | h2
            · rw [h2]
              exact List.mem_cons_self lz ls
            · exact List.mem_cons_of_mem lz h2
          rw [← hlabels] at hmem
          obtain ⟨o, ho, holabel⟩ := List.mem_filterMap.mp hmem
          exact ⟨o, by rw [← houts]; exact ho, holabel⟩
        · intro o ho lb hlb
          have hmem : lb ∈ lz :: ls := by
            rw [← hlabels]
            refine List.mem_filterMap.mpr ⟨o, ?_, hlb⟩
            rw [houts]
            exact ho
          rw [← hl0]
          rcases List.mem_cons.mp hmem with rfl | hmem2
          · exact hle0
          · exact hall lb hmem2
  · norm_num [compute_phase_consistency, exampleRowsC5, examplePhasesC5,
      assign_windows_to_phases, phaseForMid, phaseStats, insSortLe,
      insertLe, fminSkip, fmaxSkip, Flt.min2,
      Flt.max2, Flt.leb, Flt.ltb, Flt.isNan, Flt.div, Flt.sub, Flt.add,
      Flt.neg, statsLabel, sevRank, List.find?, List.filter,
      show strLe "w00" "w01" = true from by decide,
      show maxCount ["A", "A"] = 2 from by decide,
      show List.count "A" ["A", "A"] = 2 from by decide,
      show List.dedup ["A", "A"] = ["A"] from by decide,
      show countFlips ["A", "A"] = 0 from by decide,
      show ((some "flat_top" : Option String) == some "flat_top") = true
        from by decide, List.filterMap_cons, List.foldl_nil]

/-- C4 witness: the concrete library is non-empty and its first window has
`t_start < t_end`. -/
theorem window_library_spec_witness :
    0 < (generate_window_library (1/2) (3/5)
          [-(1/100), 0, 1/100] [0, 1/100]).length
    ∧ ((generate_window_library (1/2) (3/5)
          [-(1/100), 0, 1/100] [0, 1/100]).headD ⟨"", 0, 0, ""⟩).t_start
        < ((generate_window_library (1/2) (3/5)
          [-(1/100), 0, 1/100] [0, 1/100]).headD ⟨"", 0, 0, ""⟩).t_end := by
  have h := window_library_spec (1/2) (3/5) [-(1/100), 0, 1/100] [0, 1/100]
  have hlen : 0 < (generate_window_library (1/2) (3/5)
      [-(1/100), 0, 1/100] [0, 1/100]).length := by
    rw [h.2.2.1]
    norm_num
  refine ⟨hlen, ?_⟩
  rcases hlib : generate_window_library (1/2) (3/5)
      [-(1/100), 0, 1/100] [0, 1/100] with _ | ⟨w, rest⟩
  · rw [hlib] at hlen
    simp at hlen
  · have hw : w ∈ generate_window_library (1/2) (3/5)
        [-(1/100), 0, 1/100] [0, 1/100] := by
      rw [hlib]
      exact List.mem_cons_self w rest
    simpa [hlib] using h.2.1 w hw

/-- C5 witness: the classification facts instantiated at the concrete
flat-top example (dominant fraction 1, drift 1/50, label
PHASE-CONSISTENT). -/
theorem compute_phase_consistency_spec_witness :
    (0 ≤ (1 : ℚ) ∧ (1 : ℚ) ≤ 1)
    ∧ ("PHASE-CONSISTENT" = "PHASE-CONSISTENT" ↔
        ((3/5 : ℚ) ≤ 1 ∧ Flt.leb (Flt.fin (1/50)) (Flt.fin (1/5)) = true))
    ∧ ("PHASE-CONSISTENT" = "PHASE-DRIFTING" ↔
        (¬((3/5 : ℚ) ≤ 1 ∧ Flt.leb (Flt.fin (1/50)) (Flt.fin (1/5)) = true)
          ∧ (0 : ℚ) ≤ 9/10))
    ∧ ("PHASE-CONSISTENT" = "PHASE-BREAKING" ↔
        (¬((3/5 : ℚ) ≤ 1 ∧ Flt.leb (Flt.fin (1/50)) (Flt.fin (1/5)) = true)
          ∧ ¬(0 : ℚ) ≤ 9/10)) := by
  have h := compute_phase_consistency_spec exampleRowsC5 examplePhasesC5
    (3/5) (1/5) (9/10)
  refine h.1 "flat_top" 2 "A" 1 (Flt.fin (1/50)) 0 "PHASE-CONSISTENT" ?_
  rw [h.2.2]
  simp [pcPhases]

/-! ### Canonical JSON (json.dumps with sort_keys=True and separators
(",", ":")), shared by robustness/schema.py and corpus/schema.py -/

mutual
/-- A JSON value.  Numbers carry their serialized token (a Python float or
int corresponds one-to-one to its repr, which is what `json.dumps`
emits). -/
inductive Json where
  | jnull : Json
  | jbool (b : Bool) : Json
  | jnum (tok : List Char) : Json
  | jstr (s : List Char) : Json
  | jarr (elems : JList) : Json
  | jobj (fields : JFields) : Json

/-- A JSON array body. -/
inductive JList where
  | nil : JList
  | cons (hd : Json) (tl : JList) : JList

/-- A JSON object body (insertion-ordered key/value pairs, as a Python
dict). -/
inductive JFields where
  | nil : JFields
  | cons (key : List Char) (val : Json) (tl : JFields) : JFields
end

/-- Key-ordered insertion into an object body. -/
def insertField (k : List Char) (v : Json) : JFields → JFields
  | JFields.nil => JFields.cons k v JFields.nil
  | JFields.cons k2 v2 tl =>
      if charListLe k k2 then JFields.cons k v (JFields.cons k2 v2 tl)
      else JFields.cons k2 v2 (insertField k v tl)

/-- Sort an object body by key (the effect of `sort_keys=True`). -/
def sortFields : JFields → JFields
  | JFields.nil => JFields.nil
  | JFields.cons k v tl => insertField k v (sortFields tl)

mutual
/-- Sort every object of the value by key, recursively (what
`json.dumps(obj, sort_keys=True)` serializes). -/
def Json.canonicalize : Json → Json
  | Json.jnull => Json.jnull
  | Json.jbool b => Json.jbool b
  | Json.jnum t => Json.jnum t
  | Json.jstr s => Json.jstr s
  | Json.jarr xs => Json.jarr (JList.canonMap xs)
  | Json.jobj fs => Json.jobj (sortFields (JFields.canonMap fs))

def JList.canonMap : JList → JList
  | JList.nil => JList.nil
  | JList.cons j tl => JList.cons j.canonicalize (JList.canonMap tl)

def JFields.canonMap : JFields → JFields
  | JFields.nil => JFields.nil
  | JFields.cons k v tl => JFields.cons k v.canonicalize (JFields.canonMap tl)
end

/-- A quoted JSON string (no escaping: the safety predicates below restrict
strings to characters `json.dumps` passes through verbatim). -/
def quoteCL (s : List Char) : List Char := '"' :: s ++ ['"']

mutual
/-- Serialization with the compact separators `(",", ":")`. -/
def Json.dumps : Json → List Char
  | Json.jnull => "null".data
  | Json.jbool true => "true".data
  | Json.jbool false => "false".data
  | Json.jnum tok => tok
  | Json.jstr s => quoteCL s
  | Json.jarr xs => '[' :: JList.dumpElems xs ++ [']']
  | Json.jobj fs => '{' :: JFields.dumpFields fs ++ ['}']

def JList.dumpElems : JList → List Char
  | JList.nil => []
  | JList.cons j JList.nil => j.dumps
  | JList.cons j (JList.cons j2 tl) =>
      j.dumps ++ ',' :: JList.dumpElems (JList.cons j2 tl)

def JFields.dumpFields : JFields → List Char
  | JFields.nil => []
  | JFields.cons k v JFields.nil => quoteCL k ++ ':' :: v.dumps
  | JFields.cons k v (JFields.cons k2 v2 tl) =>
      quoteCL k ++ ':' :: v.dumps ++ ',' :: JFields.dumpFields (JFields.cons k2 v2 tl)
end

/-- List view of an object body. -/
def JFields.toList : JFields → List (List Char × Json)
  | JFields.nil => []
  | JFields.cons k v tl => (k, v) :: JFields.toList tl

/-- Key ordering on pairs. -/
def pairKeyLe (a b : List Char × Json) : Bool := charListLe a.1 b.1

theorem toList_insertField (k : List Char) (v : Json) :
    ∀ f : JFields,
      (insertField k v f).toList = insertLe pairKeyLe (k, v) f.toList
  | JFields.nil => rfl
  | JFields.cons k2 v2 tl => by
      by_cases h : charListLe k k2 = true
      · simp [insertField, JFields.toList, insertLe, pairKeyLe, h]
      · simp [insertField, JFields.toList, insertLe, pairKeyLe, h,
          toList_insertField k v tl]

theorem toList_sortFields :
    ∀ f : JFields, (sortFields f).toList = insSortLe pairKeyLe f.toList
  | JFields.nil => rfl
  | JFields.cons k v tl => by
      simp [sortFields, JFields.toList, insSortLe, toList_insertField,
        toList_sortFields tl]

theorem toList_injective :
    ∀ {f g : JFields}, f.toList = g.toList → f = g
  | JFields.nil, JFields.nil, _ => rfl
  | JFields.nil, JFields.cons k v tl, h => by
      simp [JFields.toList] at h
  | JFields.cons k v tl, JFields.nil, h => by
      simp [JFields.toList] at h
  | JFields.cons k v tl, JFields.cons k2 v2 tl2, h => by
      simp only [JFields.toList, List.cons.injEq, Prod.mk.injEq] at h
      obtain ⟨⟨hk, hv⟩, htl⟩ := h
      rw [hk, hv, toList_injective htl]

/-- A character `json.dumps` passes through verbatim inside a string:
printable ASCII other than the quote and the backslash (anything else
would be escaped, which this printer does not model). -/
def safeCharB (c : Char) : Bool :=
  decide (32 ≤ c.toNat) && decide (c.toNat ≤ 126) && (c != '"') && (c != '\\')

def safeStrB (s : List Char) : Bool := s.all safeCharB

/-- The characters a Python int / float repr consists of. -/
def numCharB (c : Char) : Bool :=
  ['0', '1', '2', '3', '4', '5', '6', '7', '8', '9',
   '-', '+', '.', 'e', 'E'].contains c

def safeNumB (t : List Char) : Bool := !t.isEmpty && t.all numCharB

/-- A flat, safely-printable parameter value (string, number token or
bool: the shapes scenario parameter maps actually hold). -/
def safeValB : Json → Bool
  | Json.jstr s => safeStrB s
  | Json.jnum t => safeNumB t
  | Json.jbool _ => true
  | _ => false

def safeFieldsB : JFields → Bool
  | JFields.nil => true
  | JFields.cons k v tl => safeStrB k && safeValB v && safeFieldsB tl

def fieldsLen : JFields → ℕ
  | JFields.nil => 0
  | JFields.cons _ _ tl => fieldsLen tl + 1

/-! The inverse reader used to prove the canonical serialization
injective on safe descriptors. -/

def readStrAux : List Char → Option (List Char × List Char)
  | [] => none
  | c :: tl =>
      if c = '"' then some ([], tl)
      else match readStrAux tl with
        | some (s, rest) => some (c :: s, rest)
        | none => none

def readStr : List Char → Option (List Char × List Char)
  | [] => none
  | c :: tl => if c = '"' then readStrAux tl else none

def readTok : List Char → List Char × List Char
  | [] => ([], [])
  | c :: tl =>
      if c = ',' ∨ c = '}' then ([], c :: tl)
      else
        let r := readTok tl
        (c :: r.1, r.2)

def parseVal (cs : List Char) : Option (Json × List Char) :=
  match cs with
  | [] => none
  | c :: tl =>
      if c = '"' then
        match readStrAux tl with
        | some (s, rest) => some (Json.jstr s, rest)
        | none => none
      else
        let r := readTok (c :: tl)
        if r.1 = "true".data then some (Json.jbool true, r.2)
        else if r.1 = "false".data then some (Json.jbool false, r.2)
        else if r.1 = "null".data then some (Json.jnull, r.2)
        else if r.1.isEmpty then none
        else some (Json.jnum r.1, r.2)

def parsePairs : ℕ → List Char → Option (JFields × List Char)
  | fuel, cs =>
      match cs with
      | [] => none
      | c :: rest =>
          if c = '}' then some (JFields.nil, rest)
          else
            match fuel with
            | 0 => none
            | fuel + 1 =>
                match readStr (c :: rest) with
                | none => none
                | some (k, r1) =>
                    match r1 with
                    | [] => none
                    | c2 :: r2 =>
                        if c2 = ':' then
                          match parseVal r2 with
                          | none => none
                          | some (v, r3) =>
                              match r3 with
                              | [] => none
                              | c3 :: r4 =>
                                  if c3 = ',' then
                                    match parsePairs fuel r4 with
                                    | some (fs2, rest2) =>
                                        some (JFields.cons k v fs2, rest2)
                                    | none => none
                                  else if c3 = '}' then
                                    some (JFields.cons k v JFields.nil, r4)
                                  else none
                        else none

def parseObj (cs : List Char) : Option (JFields × List Char) :=
  match cs with
  | [] => none
  | c :: rest => if c = '{' then parsePairs rest.length rest else none

theorem safeCharB_ne_quote {c : Char} (h : safeCharB c = true) : c ≠ '"' := by
  simp only [safeCharB, Bool.and_eq_true, bne_iff_ne] at h
  exact h.1.2

theorem readStrAux_round (s rest : List Char) (hs : safeStrB s = true) :
    readStrAux (s ++ '"' :: rest) = some (s, rest) := by
  induction s with
  | nil => simp [readStrAux]
  | cons c tl ih =>
    rw [safeStrB, List.all_cons, Bool.and_eq_true] at hs
    have hne : c ≠ '"' := safeCharB_ne_quote hs.1
    simp [readStrAux, hne, ih hs.2]

theorem numCharB_not_stop {c : Char} (h : numCharB c = true) :
    c ≠ ',' ∧ c ≠ '}' := by
  constructor <;> rintro rfl <;> exact absurd h (by decide)

theorem readTok_round (t : List Char) (c0 : Char) (r0 : List Char)
    (ht : ∀ c ∈ t, c ≠ ',' ∧ c ≠ '}') (hc0 : c0 = ',' ∨ c0 = '}') :
    readTok (t ++ c0 :: r0) = (t, c0 :: r0) := by
  induction t with
  | nil =>
    simp [readTok, hc0]
  | cons c tl ih =>
    have hc := ht c (List.mem_cons_self c tl)
    have : ¬(c = ',' ∨ c = '}') := by
      rintro (rfl | rfl)
      · exact hc.1 rfl
      · exact hc.2 rfl
    simp [readTok, this, ih fun x hx => ht x (List.mem_cons_of_mem c hx)]

theorem numTok_ne_words {t : List Char} (ht : safeNumB t = true) :
    t ≠ "true".data ∧ t ≠ "false".data ∧ t ≠ "null".data := by
  rw [safeNumB, Bool.and_eq_true] at ht
  refine ⟨?_, ?_, ?_⟩ <;> intro heq <;> subst heq
  · exact absurd (ht.2) (by decide)
  · exact absurd (ht.2) (by decide)
  · exact absurd (ht.2) (by decide)

theorem parseVal_round (v : Json) (hv : safeValB v = true)
    (c0 : Char) (r0 : List Char) (hc0 : c0 = ',' ∨ c0 = '}') :
    parseVal (v.dumps ++ c0 :: r0) = some (v, c0 :: r0) := by
  cases v with
  | jstr s =>
      have hs : safeStrB s = true := hv
      simp only [Json.dumps, quoteCL, List.cons_append, List.append_assoc,
        List.cons_append]
      simp [parseVal, readStrAux_round s (c0 :: r0) hs]
  | jnum t =>
      have ht : safeNumB t = true := hv
      rw [safeNumB, Bool.and_eq_true] at ht
      obtain ⟨hne, hall⟩ := ht
      rcases t with _ | ⟨c, tl⟩
      · simp at hne
      · have hcq : numCharB c = true := by
          have := List.all_eq_true.mp hall c (List.mem_cons_self c tl)
          exact this
        have hcne : c ≠ '"' := by
          rintro rfl
          exact absurd hcq (by decide)
        have hrt := readTok_round (c :: tl) c0 r0
          (fun x hx => numCharB_not_stop (List.all_eq_true.mp hall x hx)) hc0
        have hwords := numTok_ne_words (t := c :: tl)
          (by rw [safeNumB, Bool.and_eq_true]; exact ⟨by simp, hall⟩)
        simp only [Json.dumps, List.cons_append]
        rw [parseVal]
        rw [if_neg hcne]
        rw [List.cons_append] at hrt
        simp only [hrt]
        rw [if_neg hwords.1, if_neg hwords.2.1, if_neg hwords.2.2]
        simp
  | jbool b =>
      cases b with
      | true =>
          have hrt : readTok ('t' :: 'r' :: 'u' :: 'e' :: c0 :: r0)
              = (['t', 'r', 'u', 'e'], c0 :: r0) := by
            simpa using readTok_round "true".data c0 r0 (by decide) hc0
          have hform : Json.dumps (Json.jbool true) ++ c0 :: r0
              = 't' :: 'r' :: 'u' :: 'e' :: c0 :: r0 := by
            simp [Json.dumps]
          rw [hform, parseVal]
          simp [hrt]
      | false =>
          have hrt : readTok ('f' :: 'a' :: 'l' :: 's' :: 'e' :: c0 :: r0)
              = (['f', 'a', 'l', 's', 'e'], c0 :: r0) := by
            simpa using readTok_round "false".data c0 r0 (by decide) hc0
          have hform : Json.dumps (Json.jbool false) ++ c0 :: r0
              = 'f' :: 'a' :: 'l' :: 's' :: 'e' :: c0 :: r0 := by
            simp [Json.dumps]
          rw [hform, parseVal]
          simp [hrt]
  | jnull => exact absurd hv (by simp [safeValB])
  | jarr xs => exact absurd hv (by simp [safeValB])
  | jobj fs => exact absurd hv (by simp [safeValB])

theorem fieldsLen_le_dumpFields :
    ∀ fs : JFields, fieldsLen fs ≤ (JFields.dumpFields fs).length
  | JFields.nil => Nat.le_refl _
  | JFields.cons k v JFields.nil => by
      simp [fieldsLen, JFields.dumpFields, quoteCL]
  | JFields.cons k v (JFields.cons k2 v2 tl) => by
      have ih := fieldsLen_le_dumpFields (JFields.cons k2 v2 tl)
      simp only [fieldsLen, JFields.dumpFields, quoteCL] at ih ⊢
      simp only [List.length_append, List.length_cons]
      omega

theorem parsePairs_round :
    ∀ (fs : JFields) (fuel : ℕ) (rest : List Char),
      safeFieldsB fs = true → fieldsLen fs ≤ fuel →
      parsePairs fuel (JFields.dumpFields fs ++ '}' :: rest)
        = some (fs, rest)
  | JFields.nil, fuel, rest, _, _ => by
      rw [show JFields.dumpFields JFields.nil ++ '}' :: rest
        = '}' :: rest from rfl, parsePairs.eq_def]
      simp
  | JFields.cons k v JFields.nil, fuel, rest, hsafe, hfuel => by
      simp only [safeFieldsB, Bool.and_eq_true] at hsafe
      obtain ⟨⟨hk, hv⟩, _⟩ := hsafe
      rcases fuel with _ | f
      · simp [fieldsLen] at hfuel
      · have hinput : JFields.dumpFields (JFields.cons k v JFields.nil)
            ++ '}' :: rest
            = '"' :: (k ++ '"' :: ':' :: (Json.dumps v ++ '}' :: rest)) := by
          simp [JFields.dumpFields, quoteCL]
        have hrs : readStr ('"' :: (k ++ '"' :: ':'
            :: (Json.dumps v ++ '}' :: rest)))
            = some (k, ':' :: (Json.dumps v ++ '}' :: rest)) := by
          rw [readStr, if_pos rfl]
          exact readStrAux_round k _ hk
        have hpv := parseVal_round v hv '}' rest (Or.inr rfl)
        rw [hinput, parsePairs.eq_def]
        simp [hrs, hpv, show ¬('"' = '}') from by decide,
          show ¬('}' = ',') from by decide]
  | JFields.cons k v (JFields.cons k2 v2 tl), fuel, rest, hsafe, hfuel => by
      simp only [safeFieldsB, Bool.and_eq_true] at hsafe
      obtain ⟨⟨hk, hv⟩, htl⟩ := hsafe
      rcases fuel with _ | f
      · simp [fieldsLen] at hfuel
      · have hrec := parsePairs_round (JFields.cons k2 v2 tl) f rest
          (by simp only [safeFieldsB, Bool.and_eq_true] at htl ⊢; exact htl)
          (by simp only [fieldsLen] at hfuel ⊢; omega)
        have hinput : JFields.dumpFields
              (JFields.cons k v (JFields.cons k2 v2 tl)) ++ '}' :: rest
            = '"' :: (k ++ '"' :: ':' :: (Json.dumps v ++ ','
                :: (JFields.dumpFields (JFields.cons k2 v2 tl)
                  ++ '}' :: rest))) := by
          simp [JFields.dumpFields, quoteCL]
        have hrs : readStr ('"' :: (k ++ '"' :: ':'
            :: (Json.dumps v ++ ','
              :: (JFields.dumpFields (JFields.cons k2 v2 tl)
                ++ '}' :: rest))))
            = some (k, ':' :: (Json.dumps v ++ ','
              :: (JFields.dumpFields (JFields.cons k2 v2 tl)
                ++ '}' :: rest))) := by
          rw [readStr, if_pos rfl]
          exact readStrAux_round k _ hk
        have hpv := parseVal_round v hv ','
          (JFields.dumpFields (JFields.cons k2 v2 tl) ++ '}' :: rest)
          (Or.inl rfl)
        rw [hinput, parsePairs.eq_def]
        simp [hrs, hpv, hrec, show ¬('"' = '}') from by decide]

theorem parseObj_round (fs : JFields) (rest : List Char)
    (hsafe : safeFieldsB fs = true) :
    parseObj ('{' :: (JFields.dumpFields fs ++ '}' :: rest))
      = some (fs, rest) := by
  rw [parseObj]
  simp only [if_pos rfl]
  exact parsePairs_round fs _ rest hsafe
    (le_trans (fieldsLen_le_dumpFields fs) (by simp))

theorem charListLe_antisym :
    ∀ {a b : List Char}, charListLe a b = true → charListLe b a = true →
      a = b
  | [], [], _, _ => rfl
  | [], _ :: _, _, h2 => by simp [charListLe] at h2
  | _ :: _, [], h1, _ => by simp [charListLe] at h1
  | x :: xs, y :: ys, h1, h2 => by
      simp only [charListLe] at h1 h2
      by_cases hxy : x.toNat < y.toNat
      · simp [show ¬(y.toNat < x.toNat) by omega, hxy] at h2
      · by_cases hyx : y.toNat < x.toNat
        · simp [hxy, hyx] at h1
        · simp only [if_neg hxy, if_neg hyx] at h1 h2
          have hx : x = y := by
            have hnat : x.toNat = y.toNat := by omega
            calc x = Char.ofNat x.toNat := (Char.ofNat_toNat x).symm
              _ = Char.ofNat y.toNat := by rw [hnat]
              _ = y := Char.ofNat_toNat y
          rw [hx, charListLe_antisym h1 h2]

theorem eq_of_perm_of_pairwise {α : Type} (R : α → α → Prop) :
    ∀ (l1 l2 : List α), l1.Perm l2 → l1.Pairwise R → l2.Pairwise R →
      (∀ a ∈ l1, ∀ b ∈ l1, R a b → R b a → a = b) → l1 = l2
  | [], l2, hperm, _, _, _ => (hperm.nil_eq).symm ▸ rfl
  | a :: t1, [], hperm, _, _, _ => by
      exact absurd hperm.symm (by simp)
  | a :: t1, b :: t2, hperm, h1, h2, hanti => by
      have hab : a = b := by
        have ha2 : a ∈ b :: t2 := hperm.mem_iff.mp (List.mem_cons_self a t1)
        have hb1 : b ∈ a :: t1 := hperm.mem_iff.mpr (List.mem_cons_self b t2)
        rcases List.mem_cons.mp ha2 with h | ha2t
        · exact h
        · rcases List.mem_cons.mp hb1 with h | hb1t
          · exact h.symm
          · have hRab : R a b := (List.pairwise_cons.mp h1).1 b hb1t
            have hRba : R b a := (List.pairwise_cons.mp h2).1 a ha2t
            exact hanti a (List.mem_cons_self a t1) b hb1 hRab hRba
      subst hab
      have hperm2 : t1.Perm t2 := hperm.cons_inv
      rw [eq_of_perm_of_pairwise R t1 t2 hperm2
        (List.pairwise_cons.mp h1).2 (List.pairwise_cons.mp h2).2
        (fun x hx y hy => hanti x (List.mem_cons_of_mem a hx)
          y (List.mem_cons_of_mem a hy))]

theorem pairwise_key_eq {β : Type} {l : List (List Char × β)}
    (hpw : l.Pairwise fun x y => x.1 ≠ y.1) :
    ∀ a ∈ l, ∀ b ∈ l, a.1 = b.1 → a = b := by
  induction l with
  | nil => intro a ha; simp at ha
  | cons x tl ih =>
    rw [List.pairwise_cons] at hpw
    intro a ha b hb hk
    rcases List.mem_cons.mp ha with rfl | ha2
    · rcases List.mem_cons.mp hb with rfl | hb2
      · rfl
      · exact absurd hk (hpw.1 b hb2)
    · rcases List.mem_cons.mp hb with rfl | hb2
      · exact absurd hk.symm (hpw.1 a ha2)
      · exact ih hpw.2 a ha2 b hb2 hk

theorem toList_canonMap :
    ∀ fs : JFields, (JFields.canonMap fs).toList
      = fs.toList.map fun kv => (kv.1, Json.canonicalize kv.2)
  | JFields.nil => rfl
  | JFields.cons k v tl => by
      simp [JFields.canonMap, JFields.toList, toList_canonMap tl]

theorem canonMap_safe :
    ∀ {fs : JFields}, safeFieldsB fs = true → JFields.canonMap fs = fs
  | JFields.nil, _ => rfl
  | JFields.cons k v tl, h => by
      simp only [safeFieldsB, Bool.and_eq_true] at h
      obtain ⟨⟨_, hv⟩, htl⟩ := h
      have hvc : Json.canonicalize v = v := by
        cases v <;> first
        | rfl
        | exact absurd hv (by simp [safeValB])
      simp [JFields.canonMap, hvc, canonMap_safe htl]

theorem safeFieldsB_toList :
    ∀ fs : JFields, safeFieldsB fs = true ↔
      ∀ p ∈ fs.toList, safeStrB p.1 = true ∧ safeValB p.2 = true
  | JFields.nil => by simp [safeFieldsB, JFields.toList]
  | JFields.cons k v tl => by
      simp only [safeFieldsB, Bool.and_eq_true, JFields.toList]
      constructor
      · rintro ⟨⟨hk, hv⟩, htl⟩ p hp
        rcases List.mem_cons.mp hp with rfl | hp2
        · exact ⟨hk, hv⟩
        · exact (safeFieldsB_toList tl).mp htl p hp2
      · intro h
        refine ⟨⟨(h (k, v) (List.mem_cons_self _ _)).1,
          (h (k, v) (List.mem_cons_self _ _)).2⟩, ?_⟩
        exact (safeFieldsB_toList tl).mpr fun p hp =>
          h p (List.mem_cons_of_mem _ hp)

theorem pairKeyLe_total (a b : List Char × Json) :
    pairKeyLe a b = true ∨ pairKeyLe b a = true :=
  charListLe_total a.1 b.1

theorem pairKeyLe_trans {a b c : List Char × Json}
    (h1 : pairKeyLe a b = true) (h2 : pairKeyLe b c = true) :
    pairKeyLe a c = true :=
  charListLe_trans h1 h2

/-- Two object bodies holding the same key/value pairs (in any order, with
pairwise-distinct keys) sort to the same body: the canonical serialization
is order-independent. -/
theorem sortFields_eq_of_perm {f g : JFields}
    (hperm : f.toList.Perm g.toList)
    (hkeys : f.toList.Pairwise fun x y => x.1 ≠ y.1) :
    sortFields f = sortFields g := by
  apply toList_injective
  rw [toList_sortFields, toList_sortFields]
  refine eq_of_perm_of_pairwise (fun x y => pairKeyLe x y = true) _ _
    (((perm_insSortLe pairKeyLe f.toList).trans hperm).trans
      (perm_insSortLe pairKeyLe g.toList).symm)
    (pairwise_insSortLe pairKeyLe pairKeyLe_total
      (fun {a b c} => pairKeyLe_trans) f.toList)
    (pairwise_insSortLe pairKeyLe pairKeyLe_total
      (fun {a b c} => pairKeyLe_trans) g.toList)
    ?_
  intro a ha b hb hab hba
  have hmem : ∀ x, x ∈ insSortLe pairKeyLe f.toList ↔ x ∈ f.toList :=
    fun x => (perm_insSortLe pairKeyLe f.toList).mem_iff
  exact pairwise_key_eq hkeys a ((hmem a).mp ha) b ((hmem b).mp hb)
    (charListLe_antisym hab hba)

/-! ### Scenario descriptor identity (robustness/schema.py) -/

/-- ScenarioDescriptor of robustness/schema.py (strings as character
lists; the parameter map as an insertion-ordered object body). -/
structure ScenarioDescriptor where
  family : List Char
  window_id : List Char
  name : List Char
  params : JFields

/-- to_obj: the dict
`{"family": .., "window_id": .., "name": .., "params": ..}`. -/
def ScenarioDescriptor.to_obj (d : ScenarioDescriptor) : Json :=
  Json.jobj (JFields.cons "family".data (Json.jstr d.family)
    (JFields.cons "window_id".data (Json.jstr d.window_id)
      (JFields.cons "name".data (Json.jstr d.name)
        (JFields.cons "params".data (Json.jobj d.params) JFields.nil))))

/-- canonical_json: `json.dumps(to_obj, sort_keys=True,
separators=(",", ":"))`. -/
def ScenarioDescriptor.canonical_json (d : ScenarioDescriptor) :
    List Char :=
  (d.to_obj.canonicalize).dumps

/-- scenario_id: the hash of the canonical JSON.  `H` abstracts
`sha256(. .encode("utf-8")).hexdigest()[:16]`, about which nothing is
assumed unless stated. -/
def ScenarioDescriptor.scenario_id (H : List Char → List Char)
    (d : ScenarioDescriptor) : List Char :=
  H d.canonical_json

def safeDescB (d : ScenarioDescriptor) : Bool :=
  safeStrB d.family && safeStrB d.window_id && safeStrB d.name
    && safeFieldsB d.params

def descLit1 : List Char := '{' :: '"' :: ("family".data ++ ['"', ':'])
def descLit2 : List Char := ',' :: '"' :: ("name".data ++ ['"', ':'])
def descLit3 : List Char := ',' :: '"' :: ("params".data ++ ['"', ':'])
def descLit4 : List Char := ',' :: '"' :: ("window_id".data ++ ['"', ':'])

def dropLit (pat cs : List Char) : Option (List Char) :=
  if startsWithCL pat cs then some (cs.drop pat.length) else none

theorem startsWithCL_append :
    ∀ (p r : List Char), startsWithCL p (p ++ r) = true
  | [], _ => rfl
  | c :: tl, r => by simp [startsWithCL, startsWithCL_append tl r]

theorem dropLit_append (p r : List Char) : dropLit p (p ++ r) = some r := by
  simp [dropLit, startsWithCL_append, List.drop_left]

/-- Inverse reader of the canonical serialization of a descriptor;
returns (family, name, sorted params, window_id). -/
def parseDescriptor (cs : List Char) :
    Option (List Char × List Char × JFields × List Char) :=
  match dropLit descLit1 cs with
  | none => none
  | some r1 =>
      match readStr r1 with
      | none => none
      | some (fam, r2) =>
          match dropLit descLit2 r2 with
          | none => none
          | some r3 =>
              match readStr r3 with
              | none => none
              | some (nm, r4) =>
                  match dropLit descLit3 r4 with
                  | none => none
                  | some r5 =>
                      match parseObj r5 with
                      | none => none
                      | some (ps, r6) =>
                          match dropLit descLit4 r6 with
                          | none => none
                          | some r7 =>
                              match readStr r7 with
                              | none => none
                              | some (wid, r8) =>
                                  if r8 = ['}'] then
                                    some (fam, nm, ps, wid)
                                  else none

theorem canonical_json_shape (d : ScenarioDescriptor) :
    d.canonical_json
      = descLit1 ++ '"' :: (d.family ++ '"'
          :: (descLit2 ++ '"' :: (d.name ++ '"'
            :: (descLit3 ++ '{'
              :: (JFields.dumpFields (sortFields (JFields.canonMap d.params))
                ++ '}' :: (descLit4 ++ '"' :: (d.window_id ++ '"'
                  :: ['}'])))))))  := by
  have hsorted : sortFields (JFields.canonMap
      (JFields.cons "family".data (Json.jstr d.family)
        (JFields.cons "window_id".data (Json.jstr d.window_id)
          (JFields.cons "name".data (Json.jstr d.name)
            (JFields.cons "params".data (Json.jobj d.params) JFields.nil)))))
      = JFields.cons "family".data (Json.jstr d.family)
          (JFields.cons "name".data (Json.jstr d.name)
            (JFields.cons "params".data
                (Json.jobj (sortFields (JFields.canonMap d.params)))
              (JFields.cons "window_id".data (Json.jstr d.window_id)
                JFields.nil))) := by
    rfl
  rw [ScenarioDescriptor.canonical_json, ScenarioDescriptor.to_obj]
  rw [show Json.canonicalize (Json.jobj (JFields.cons "family".data
      (Json.jstr d.family) (JFields.cons "window_id".data
        (Json.jstr d.window_id) (JFields.cons "name".data (Json.jstr d.name)
          (JFields.cons "params".data (Json.jobj d.params) JFields.nil)))))
    = Json.jobj (sortFields (JFields.canonMap (JFields.cons "family".data
        (Json.jstr d.family) (JFields.cons "window_id".data
          (Json.jstr d.window_id) (JFields.cons "name".data
            (Json.jstr d.name) (JFields.cons "params".data
              (Json.jobj d.params) JFields.nil)))))) from rfl]
  rw [hsorted]
  simp [Json.dumps, JFields.dumpFields, quoteCL, descLit1, descLit2,
    descLit3, descLit4]

theorem parse_canonical (d : ScenarioDescriptor)
    (hsafe : safeDescB d = true) :
    parseDescriptor d.canonical_json
      = some (d.family, d.name, sortFields d.params, d.window_id) := by
  simp only [safeDescB, Bool.and_eq_true] at hsafe
  obtain ⟨⟨⟨hf, hw⟩, hn⟩, hp⟩ := hsafe
  have hps : safeFieldsB (sortFields d.params) = true := by
    rw [safeFieldsB_toList]
    intro p hp2
    rw [toList_sortFields] at hp2
    exact (safeFieldsB_toList d.params).mp hp p
      ((perm_insSortLe pairKeyLe d.params.toList).mem_iff.mp hp2)
  rw [canonical_json_shape, canonMap_safe hp, parseDescriptor]
  simp [dropLit_append, readStr, readStrAux_round _ _ hf,
    readStrAux_round _ _ hn, readStrAux_round _ _ hw,
    parseObj_round _ _ hps]

/-- C3: the scenario id is the hash of the canonical (sorted-key,
fixed-separator) JSON of the descriptor.  (1) Two descriptors whose
parameter maps hold the same key/value pairs in any order (keys distinct)
get the identical id, whatever the hash function is.  (2) For an injective
hash (sha256 is treated as such), two safely-printable descriptors get the
same id exactly when family, name, window id and the sorted parameter map
all agree — so the id changes whenever any parameter changes. -/
theorem scenario_id_spec :
    (∀ (H : List Char → List Char) (d1 d2 : ScenarioDescriptor),
        d1.family = d2.family → d1.window_id = d2.window_id →
        d1.name = d2.name → d1.params.toList.Perm d2.params.toList →
        (d1.params.toList.Pairwise fun x y => x.1 ≠ y.1) →
        ScenarioDescriptor.scenario_id H d1
          = ScenarioDescriptor.scenario_id H d2)
    ∧ (∀ H : List Char → List Char, Function.Injective H →
        ∀ d1 d2 : ScenarioDescriptor, safeDescB d1 = true →
        safeDescB d2 = true →
        (ScenarioDescriptor.scenario_id H d1
            = ScenarioDescriptor.scenario_id H d2
          ↔ d1.family = d2.family ∧ d1.name = d2.name
            ∧ sortFields d1.params = sortFields d2.params
            ∧ d1.window_id = d2.window_id)) := by
  constructor
  · intro H d1 d2 hfam hwid hname hperm hkeys
    have hsort : sortFields (JFields.canonMap d1.params)
        = sortFields (JFields.canonMap d2.params) := by
      apply sortFields_eq_of_perm
      · rw [toList_canonMap, toList_canonMap]
        exact hperm.map _
      · rw [toList_canonMap]
        exact (List.pairwise_map).mpr (by
          simpa using hkeys)
    unfold ScenarioDescriptor.scenario_id
    rw [canonical_json_shape, canonical_json_shape, hfam, hwid, hname,
      hsort]
  · intro H hinj d1 d2 hs1 hs2
    constructor
    · intro hid
      have hcanon : d1.canonical_json = d2.canonical_json :=
        hinj hid
      have p1 := parse_canonical d1 hs1
      have p2 := parse_canonical d2 hs2
      rw [hcanon, p2] at p1
      simp only [Option.some.injEq, Prod.mk.injEq] at p1
      obtain ⟨hfam, hname, hsort, hwid⟩ := p1
      exact ⟨hfam.symm, hname.symm, hsort.symm, hwid.symm⟩
    · intro hcomp
      obtain ⟨hfam, hname, hsort, hwid⟩ := hcomp
      unfold ScenarioDescriptor.scenario_id
      have hp1 : safeFieldsB d1.params = true := by
        simp only [safeDescB, Bool.and_eq_true] at hs1
        exact hs1.2
      have hp2 : safeFieldsB d2.params = true := by
        simp only [safeDescB, Bool.and_eq_true] at hs2
        exact hs2.2
      rw [canonical_json_shape, canonical_json_shape, hfam, hwid, hname,
        canonMap_safe hp1, canonMap_safe hp2, hsort]

/-- Concrete descriptors for the C3 witness. -/
def descA : ScenarioDescriptor :=
  ⟨"window".data, "w00".data, "baseline_window_score".data,
    JFields.cons "t_end".data (Json.jnum "0.6".data)
      (JFields.cons "t_start".data (Json.jnum "0.5".data) JFields.nil)⟩

/-- descA with its parameter map in the opposite key order. -/
def descB : ScenarioDescriptor :=
  ⟨"window".data, "w00".data, "baseline_window_score".data,
    JFields.cons "t_start".data (Json.jnum "0.5".data)
      (JFields.cons "t_end".data (Json.jnum "0.6".data) JFields.nil)⟩

/-- descA with one parameter value changed. -/
def descC : ScenarioDescriptor :=
  ⟨"window".data, "w00".data, "baseline_window_score".data,
    JFields.cons "t_end".data (Json.jnum "0.7".data)
      (JFields.cons "t_start".data (Json.jnum "0.5".data) JFields.nil)⟩

/-- C3 witness: swapping the parameter order leaves the id unchanged, and
changing one parameter value changes it (with the hash kept injective). -/
theorem scenario_id_spec_witness :
    ScenarioDescriptor.scenario_id (fun x => x) descA
      = ScenarioDescriptor.scenario_id (fun x => x) descB
    ∧ ScenarioDescriptor.scenario_id (fun x => x) descA
      ≠ ScenarioDescriptor.scenario_id (fun x => x) descC := by
  constructor
  · refine scenario_id_spec.1 (fun x => x) descA descB rfl rfl rfl ?_ ?_
    · exact List.Perm.swap _ _ _
    · decide
  · intro hid
    have h2 := (scenario_id_spec.2 (fun x => x) (fun a b h => h)
      descA descC (by decide) (by decide)).mp hid
    have h3 := h2.2.2.1
    rw [show sortFields descA.params
        = JFields.cons "t_end".data (Json.jnum "0.6".data)
            (JFields.cons "t_start".data (Json.jnum "0.5".data)
              JFields.nil) from rfl,
      show sortFields descC.params
        = JFields.cons "t_end".data (Json.jnum "0.7".data)
            (JFields.cons "t_start".data (Json.jnum "0.5".data)
              JFields.nil) from rfl] at h3
    simp only [JFields.cons.injEq, Json.jnum.injEq] at h3
    exact absurd h3.2.1 (by decide)

/-! ### Corpus identity (corpus/schema.py) -/

/-- CorpusEntry of corpus/schema.py. -/
structure CorpusEntry where
  run_dir : List Char
  shot : Option ℤ
  robustness_dir : List Char
  hashes : List (List Char × List Char)
deriving DecidableEq, Repr

/-- The hash map as an object body (values are hex-digest strings). -/
def hashesFields : List (List Char × List Char) → JFields
  | [] => JFields.nil
  | (k, v) :: tl => JFields.cons k (Json.jstr v) (hashesFields tl)

/-- Item ordering of `dict(sorted(e.hashes.items()))` (file names are
unique keys, so the key decides). -/
def hashPairLe (a b : List Char × List Char) : Bool := charListLe a.1 b.1

/-- Decimal token of an int in JSON output. -/
def intToken (i : ℤ) : List Char := (toString i).data

/-- The per-entry dict of the corpus payload. -/
def CorpusEntry.to_obj (e : CorpusEntry) : Json :=
  Json.jobj (JFields.cons "run_dir".data (Json.jstr e.run_dir)
    (JFields.cons "shot".data
        (match e.shot with
          | some i => Json.jnum (intToken i)
          | none => Json.jnull)
      (JFields.cons "robustness_dir".data (Json.jstr e.robustness_dir)
        (JFields.cons "hashes".data
            (Json.jobj (hashesFields (insSortLe hashPairLe e.hashes)))
          JFields.nil))))

def jlistOf : List Json → JList
  | [] => JList.nil
  | j :: tl => JList.cons j (jlistOf tl)

/-- The sort key of `sorted(entries, key=lambda x: (x.shot if x.shot is
not None else 10**12, x.run_dir))`. -/
def entryKey (e : CorpusEntry) : ℤ × List Char :=
  (e.shot.getD (10 ^ 12), e.run_dir)

/-- The entry ordering of that sort (lexicographic on the key). -/
def entryLe (a b : CorpusEntry) : Bool :=
  if (entryKey a).1 < (entryKey b).1 then true
  else if (entryKey b).1 < (entryKey a).1 then false
  else charListLe (entryKey a).2 (entryKey b).2

/-- corpus_id of corpus/schema.py: the hash of the canonical JSON of the
payload `{"entries": [...]}` with the entries sorted by (shot, run_dir)
(Python's sorted is stable).  `H` abstracts the sha256 hex digest. -/
def corpus_id (H : List Char → List Char) (entries : List CorpusEntry) :
    List Char :=
  let payload := Json.jobj (JFields.cons "entries".data
    (Json.jarr (jlistOf
      ((insSortLe entryLe entries).map CorpusEntry.to_obj)))
    JFields.nil)
  H (payload.canonicalize).dumps

/-- The two C8 counterexample entries: identical (shot, run_dir) sort keys
but different file hashes. -/
def entX : CorpusEntry := ⟨"a".data, some 1, "r".data, [("f".data, "1".data)]⟩

/-- entX with a different hash value. -/
def entY : CorpusEntry := ⟨"a".data, some 1, "r".data, [("f".data, "2".data)]⟩

/-- C8 counterexample: the two orderings of the same two-entry list (a
permutation of each other) serialize to different canonical payloads —
the stable sort keeps either input order because the (shot, run_dir) keys
tie — so the hashed ids differ for any injective digest; with the digest
abstracted as the identity function the ids are provably different. -/
theorem corpus_id_not_perm_invariant :
    List.Perm [entX, entY] [entY, entX]
    ∧ corpus_id (fun x => x) [entX, entY]
        ≠ corpus_id (fun x => x) [entY, entX] := by
  constructor
  · exact List.Perm.swap _ _ _
  · decide

theorem entryLe_total (a b : CorpusEntry) :
    entryLe a b = true ∨ entryLe b a = true := by
  unfold entryLe
  rcases lt_trichotomy (entryKey a).1 (entryKey b).1 with h | h | h
  · left; simp [h]
  · rcases charListLe_total (entryKey a).2 (entryKey b).2 with h2 | h2
    · left; simp [h, h2]
    · right; simp [h.symm, h2]
  · right; simp [h]

theorem entryLe_trans {a b c : CorpusEntry} (h1 : entryLe a b = true)
    (h2 : entryLe b c = true) : entryLe a c = true := by
  unfold entryLe at h1 h2 ⊢
  by_cases hab : (entryKey a).1 < (entryKey b).1 <;>
    by_cases hbc : (entryKey b).1 < (entryKey c).1
  · simp [lt_trans hab hbc]
  · simp only [if_pos hab] at h1
    by_cases hcb : (entryKey c).1 < (entryKey b).1
    · simp [hbc, hcb] at h2
    · have : (entryKey b).1 = (entryKey c).1 := le_antisymm
        (le_of_not_lt hcb) (le_of_not_lt hbc)
      simp [show (entryKey a).1 < (entryKey c).1 from this ▸ hab]
  · by_cases hba : (entryKey b).1 < (entryKey a).1
    · simp [hab, hba] at h1
    · have : (entryKey a).1 = (entryKey b).1 := le_antisymm
        (le_of_not_lt hba) (le_of_not_lt hab)
      simp [show (entryKey a).1 < (entryKey c).1 from this ▸ hbc]
  · by_cases hba : (entryKey b).1 < (entryKey a).1
    · simp [hab, hba] at h1
    · by_cases hcb : (entryKey c).1 < (entryKey b).1
      · simp [hbc, hcb] at h2
      · have he1 : (entryKey a).1 = (entryKey b).1 := le_antisymm
          (le_of_not_lt hba) (le_of_not_lt hab)
        have he2 : (entryKey b).1 = (entryKey c).1 := le_antisymm
          (le_of_not_lt hcb) (le_of_not_lt hbc)
        simp only [if_neg hab, if_neg hba] at h1
        simp only [if_neg hbc, if_neg hcb] at h2
        simp [show ¬(entryKey a).1 < (entryKey c).1 by omega,
          show ¬(entryKey c).1 < (entryKey a).1 by omega,
          charListLe_trans h1 h2]

theorem entryLe_antisym_key {a b : CorpusEntry} (h1 : entryLe a b = true)
    (h2 : entryLe b a = true) : entryKey a = entryKey b := by
  unfold entryLe at h1 h2
  by_cases hab : (entryKey a).1 < (entryKey b).1
  · simp [hab, show ¬(entryKey b).1 < (entryKey a).1 by omega] at h2
  · by_cases hba : (entryKey b).1 < (entryKey a).1
    · simp [hab, hba] at h1
    · simp only [if_neg hab, if_neg hba] at h1 h2
      have hk1 : (entryKey a).1 = (entryKey b).1 := by omega
      have hk2 : (entryKey a).2 = (entryKey b).2 :=
        charListLe_antisym h1 h2
      exact Prod.ext hk1 hk2

theorem pairwise_inj_on {α κ : Type} (key : α → κ) :
    ∀ {l : List α}, (l.Pairwise fun x y => key x ≠ key y) →
      ∀ a ∈ l, ∀ b ∈ l, key a = key b → a = b := by
  intro l hpw
  induction l with
  | nil => intro a ha; simp at ha
  | cons x tl ih =>
    rw [List.pairwise_cons] at hpw
    intro a ha b hb hk
    rcases List.mem_cons.mp ha with rfl | ha2
    · rcases List.mem_cons.mp hb with rfl | hb2
      · rfl
      · exact absurd hk (hpw.1 b hb2)
    · rcases List.mem_cons.mp hb with rfl | hb2
      · exact absurd hk.symm (hpw.1 a ha2)
      · exact ih hpw.2 a ha2 b hb2 hk

/-- C8 (amended): the corpus id is invariant under any permutation of an
entry list in which no two entries share the (shot, run_dir) sort key —
the sorted entry lists then coincide, so the canonical payloads are
byte-identical, whatever the hash function.  (With duplicate sort keys the
stable sort preserves the input order of the tied entries, and the
counterexample above shows a permutation can then change the id.) -/
theorem corpus_id_perm_spec (H : List Char → List Char)
    (l1 l2 : List CorpusEntry) (hperm : l1.Perm l2)
    (hkeys : l1.Pairwise fun a b => entryKey a ≠ entryKey b) :
    corpus_id H l1 = corpus_id H l2 := by
  have hsort : insSortLe entryLe l1 = insSortLe entryLe l2 := by
    refine eq_of_perm_of_pairwise (fun a b => entryLe a b = true) _ _
      (((perm_insSortLe entryLe l1).trans hperm).trans
        (perm_insSortLe entryLe l2).symm)
      (pairwise_insSortLe entryLe entryLe_total
        (fun {a b c} => entryLe_trans) l1)
      (pairwise_insSortLe entryLe entryLe_total
        (fun {a b c} => entryLe_trans) l2)
      ?_
    intro a ha b hb hab hba
    exact pairwise_inj_on entryKey hkeys a
      ((perm_insSortLe entryLe l1).mem_iff.mp ha) b
      ((perm_insSortLe entryLe l1).mem_iff.mp hb)
      (entryLe_antisym_key hab hba)
  unfold corpus_id
  rw [hsort]

/-- C8 witness: two entries with distinct shots give the same id in either
order. -/
theorem corpus_id_perm_spec_witness :
    corpus_id (fun x => x)
        [⟨"a".data, some 1, "r".data, []⟩, ⟨"b".data, some 2, "r".data, []⟩]
      = corpus_id (fun x => x)
        [⟨"b".data, some 2, "r".data, []⟩, ⟨"a".data, some 1, "r".data, []⟩] := by
  exact corpus_id_perm_spec (fun x => x) _ _ (List.Perm.swap _ _ _)
    (by decide)
